import Mathlib

/-!
# ofxPCL: rigid transform estimation, correspondence rejection and FPFH estimation

A shallow embedding of

* `src/libs/include/pcl/common/impl/rigid_transforms.hpp`
  (`pcl::estimateRigidTransformationSVD`, three overloads),
* `src/libs/include/pcl/registration/correspondence_rejection.h`
  (`pcl::registration::CorrespondenceRejector`), and
* `src/libs/include/pcl/features/impl/fpfh_omp.hpp`
  (`pcl::FPFHEstimationOMP::computeFeature`).

Floating point numbers are modelled by an arbitrary linearly ordered field `K`
(exact arithmetic); all definitions are computable, e.g. at `K = ℚ`.
-/

namespace pcl

/-! ## Data model -/

/-- `Eigen::Vector3f`. -/
abbrev Vector3 (K : Type) := Fin 3 → K

/-- `Eigen::Vector4f`. -/
abbrev Vector4 (K : Type) := Fin 4 → K

/-- `Eigen::Matrix3f`. -/
abbrev Matrix3 (K : Type) := Matrix (Fin 3) (Fin 3) K

/-- `Eigen::Matrix4f`. -/
abbrev Matrix4 (K : Type) := Matrix (Fin 4) (Fin 4) K

/-- `pcl::PointCloud<PointT>`: only the `points` member (the x, y, z of every point) is used. -/
structure PointCloud (K : Type) where
  points : List (Vector3 K)

/-- The part of `Eigen::JacobiSVD<Eigen::Matrix3f>` the estimator reads (`matrixU ()`,
`matrixV ()`), together with the singular values the decomposition carries. The decomposition
itself belongs to Eigen and is a parameter of the estimator. -/
structure JacobiSVD (K : Type) where
  matrixU : Matrix3 K
  matrixV : Matrix3 K
  singularValues : Vector3 K

/-- What a call of `estimateRigidTransformationSVD` leaves behind: the caller's
`transformation_matrix` after the call and whether `PCL_ERROR` was printed. -/
structure Estimate (K : Type) where
  transformation_matrix : Matrix4 K
  pcl_error : Bool

section RigidTransforms

variable {K : Type} [LinearOrderedField K]

/-- `cloud.points[i]` for an `int` index `i`; an index outside the cloud is undefined behaviour
in the source and reads the zero vector here. -/
def PointCloud.at (cloud : PointCloud K) (i : Int) : Vector3 K :=
  if 0 ≤ i then cloud.points.getD i.toNat 0 else 0

/-- `v.head<3> ()`. -/
def head3 (v : Vector4 K) : Vector3 K :=
  fun i => v (Fin.castSucc i)

/-- `m.topLeftCorner<3, 3> ()` read from a matrix with four rows and four columns. -/
def topLeftCorner3 (m : Matrix4 K) : Matrix3 K :=
  fun i j => m (Fin.castSucc i) (Fin.castSucc j)

/-- The centroid (mean) of a list of points as a `Vector4f` whose last entry is 0. -/
def centroidOf (pts : List (Vector3 K)) : Vector4 K :=
  fun i => if h : i.val < 3 then (pts.map (fun p => p ⟨i.val, h⟩)).sum / (pts.length : K) else 0

/-- Modelled from the spec: `compute3DCentroid (cloud, centroid)` of `pcl/common/centroid.h`,
which is not among the sources ("Compute the centroid of each point set"). -/
def compute3DCentroid (cloud : PointCloud K) : Vector4 K :=
  centroidOf cloud.points

/-- Modelled from the spec: `compute3DCentroid (cloud, indices, centroid)` of
`pcl/common/centroid.h`, which is not among the sources: the centroid of the points selected by
`indices`, in the order of `indices`. -/
def compute3DCentroidIndices (cloud : PointCloud K) (indices : List Int) : Vector4 K :=
  centroidOf (indices.map cloud.at)

/-- One column of a demeaned cloud: the point minus the centroid, the fourth row is 0. -/
def demeanPoint (centroid : Vector4 K) (p : Vector3 K) : Vector4 K :=
  fun i => if h : i.val < 3 then p ⟨i.val, h⟩ - centroid i else 0

/-- Modelled from the spec: `demeanPointCloud (cloud, centroid, cloud_out)` of
`pcl/common/centroid.h`, which is not among the sources ("Subtract each set's centroid from its
own points"). The `Eigen::MatrixXf` with four rows written to `cloud_out` is the list of its
columns. -/
def demeanPointCloud (cloud : PointCloud K) (centroid : Vector4 K) : List (Vector4 K) :=
  cloud.points.map (demeanPoint centroid)

/-- Modelled from the spec: `demeanPointCloud (cloud, indices, centroid, cloud_out)` of
`pcl/common/centroid.h`, which is not among the sources. -/
def demeanPointCloudIndices (cloud : PointCloud K) (indices : List Int) (centroid : Vector4 K) :
    List (Vector4 K) :=
  (indices.map cloud.at).map (demeanPoint centroid)

/-- The product `a * b.transpose ()` of two matrices with four rows given by their columns. The
callers have checked that both have the same number of columns. -/
def mulTranspose (a b : List (Vector4 K)) : Matrix4 K :=
  fun i j => (List.zipWith (fun p q => p i * q j) a b).sum

/-- The correlation matrix
`H = (cloud_src_demean * cloud_tgt_demean.transpose ()).topLeftCorner<3, 3> ()`. -/
def correlation (cloud_src_demean cloud_tgt_demean : List (Vector4 K)) : Matrix3 K :=
  topLeftCorner3 (mulTranspose cloud_src_demean cloud_tgt_demean)

/-- The loop `for (int x = 0; x < 3; ++x) v (x, 2) *= -1;`. -/
def flipThirdColumn (v : Matrix3 K) : Matrix3 K :=
  (List.finRange 3).foldl
    (fun m x => fun i j => if i = x ∧ j = 2 then m i j * (-1) else m i j) v

/-- Lines 75 to 85: `R = v * u.transpose ()`, after the third column of `v` has been negated
when `u.determinant () * v.determinant () < 0`. -/
def rotationOfSVD (svd : JacobiSVD K) : Matrix3 K :=
  let u := svd.matrixU
  let v := svd.matrixV
  let v := if u.det * v.det < 0 then flipThirdColumn v else v
  v * u.transpose

/-- `transformation_matrix.topLeftCorner<3, 3> () = R`. -/
def setTopLeftCorner3 (m : Matrix4 K) (R : Matrix3 K) : Matrix4 K :=
  fun i j => if h : i.val < 3 ∧ j.val < 3 then R ⟨i.val, h.1⟩ ⟨j.val, h.2⟩ else m i j

/-- `transformation_matrix.block <3, 1> (0, 3) = t`. -/
def setBlock31 (m : Matrix4 K) (t : Vector3 K) : Matrix4 K :=
  fun i j => if h : i.val < 3 ∧ j = 3 then t ⟨i.val, h.1⟩ else m i j

/-- Lines 87 to 90, common to the three overloads: the rotation block and the translation
`centroid_tgt.head<3> () - R * centroid_src.head<3> ()` are written into the matrix. -/
def writeTransformation (m : Matrix4 K) (R : Matrix3 K) (centroid_src centroid_tgt : Vector4 K) :
    Matrix4 K :=
  let m := setTopLeftCorner3 m R
  let Rc : Vector3 K := R.mulVec (head3 centroid_src)
  setBlock31 m (head3 centroid_tgt - Rc)

/-- `pcl::estimateRigidTransformationSVD (cloud_src, cloud_tgt, transformation_matrix)`,
lines 44 to 91. -/
def estimateRigidTransformationSVD (jacobiSVD : Matrix3 K → JacobiSVD K)
    (cloud_src cloud_tgt : PointCloud K) (transformation_matrix : Matrix4 K) : Estimate K :=
  if cloud_src.points.length ≠ cloud_tgt.points.length then
    ⟨transformation_matrix, true⟩
  else
    let transformation_matrix : Matrix4 K := 1
    let centroid_src := compute3DCentroid cloud_src
    let centroid_tgt := compute3DCentroid cloud_tgt
    let cloud_src_demean := demeanPointCloud cloud_src centroid_src
    let cloud_tgt_demean := demeanPointCloud cloud_tgt centroid_tgt
    let H := correlation cloud_src_demean cloud_tgt_demean
    let svd := jacobiSVD H
    let R := rotationOfSVD svd
    ⟨writeTransformation transformation_matrix R centroid_src centroid_tgt, false⟩

/-- `pcl::estimateRigidTransformationSVD (cloud_src, indices_src, cloud_tgt, indices_tgt,
transformation_matrix)`, lines 94 to 143. -/
def estimateRigidTransformationSVDIndices (jacobiSVD : Matrix3 K → JacobiSVD K)
    (cloud_src : PointCloud K) (indices_src : List Int)
    (cloud_tgt : PointCloud K) (indices_tgt : List Int)
    (transformation_matrix : Matrix4 K) : Estimate K :=
  if indices_src.length ≠ indices_tgt.length then
    ⟨transformation_matrix, true⟩
  else
    let transformation_matrix : Matrix4 K := 1
    let centroid_src := compute3DCentroidIndices cloud_src indices_src
    let centroid_tgt := compute3DCentroidIndices cloud_tgt indices_tgt
    let cloud_src_demean := demeanPointCloudIndices cloud_src indices_src centroid_src
    let cloud_tgt_demean := demeanPointCloudIndices cloud_tgt indices_tgt centroid_tgt
    let H := correlation cloud_src_demean cloud_tgt_demean
    let svd := jacobiSVD H
    let R := rotationOfSVD svd
    ⟨writeTransformation transformation_matrix R centroid_src centroid_tgt, false⟩

/-- `pcl::estimateRigidTransformationSVD (cloud_src, indices_src, cloud_tgt,
transformation_matrix)`, lines 147 to 195. This overload binds `u` and `v` as references to the
matrices of the decomposition; the negation of the third column reads as in the other two. -/
def estimateRigidTransformationSVDIndicesSrc (jacobiSVD : Matrix3 K → JacobiSVD K)
    (cloud_src : PointCloud K) (indices_src : List Int)
    (cloud_tgt : PointCloud K)
    (transformation_matrix : Matrix4 K) : Estimate K :=
  if indices_src.length ≠ cloud_tgt.points.length then
    ⟨transformation_matrix, true⟩
  else
    let transformation_matrix : Matrix4 K := 1
    let centroid_src := compute3DCentroidIndices cloud_src indices_src
    let centroid_tgt := compute3DCentroid cloud_tgt
    let cloud_src_demean := demeanPointCloudIndices cloud_src indices_src centroid_src
    let cloud_tgt_demean := demeanPointCloud cloud_tgt centroid_tgt
    let H := correlation cloud_src_demean cloud_tgt_demean
    let svd := jacobiSVD H
    let R := rotationOfSVD svd
    ⟨writeTransformation transformation_matrix R centroid_src centroid_tgt, false⟩

/-! ### Vocabulary of the statements about the estimator -/

/-- A matrix with orthonormal columns: `m.transpose () * m` is the identity. -/
def IsOrthogonal (m : Matrix3 K) : Prop :=
  m.transpose * m = 1

/-- A proper rotation: orthonormal and of determinant `+1`. -/
def IsProperRotation (m : Matrix3 K) : Prop :=
  m.transpose * m = 1 ∧ m.det = 1

/-- The homogeneous matrix `[R t; 0 0 0 1]`. -/
def homogeneous (R : Matrix3 K) (t : Vector3 K) : Matrix4 K :=
  fun i j =>
    if hi : i.val < 3 then
      if hj : j.val < 3 then R ⟨i.val, hi⟩ ⟨j.val, hj⟩ else t ⟨i.val, hi⟩
    else
      if j.val < 3 then 0 else 1

/-- The homogeneous coordinates `(x, y, z, 1)` of the point a `Vector4f` holds in its first
three entries. -/
def homogeneousPoint (c : Vector4 K) : Vector4 K :=
  fun i => if i.val < 3 then c i else 1

/-- The cross product of two vectors. -/
def cross (a b : Vector3 K) : Vector3 K :=
  ![a 1 * b 2 - a 2 * b 1, a 2 * b 0 - a 0 * b 2, a 0 * b 1 - a 1 * b 0]

/-- A point sequence is not collinear: three of its points span a triangle of non-zero area (so
it has at least three distinct points). -/
def NonCollinear (pts : List (Vector3 K)) : Prop :=
  ∃ a ∈ pts, ∃ b ∈ pts, ∃ c ∈ pts, cross (b - a) (c - a) ≠ 0

/-- The contract of `Eigen::JacobiSVD` with `ComputeFullU | ComputeFullV`: `H = U * S * V^T`
with `U` and `V` orthogonal and `S` the diagonal matrix of the singular values, which are not
negative and sorted in decreasing order. -/
def IsSVD (H : Matrix3 K) (svd : JacobiSVD K) : Prop :=
  IsOrthogonal svd.matrixU ∧ IsOrthogonal svd.matrixV ∧
  H = svd.matrixU * Matrix.diagonal svd.singularValues * svd.matrixV.transpose ∧
  0 ≤ svd.singularValues 2 ∧ svd.singularValues 2 ≤ svd.singularValues 1 ∧
  svd.singularValues 1 ≤ svd.singularValues 0

instance (m : Matrix3 K) : Decidable (IsOrthogonal m) :=
  inferInstanceAs (Decidable (m.transpose * m = 1))

instance (m : Matrix3 K) : Decidable (IsProperRotation m) :=
  inferInstanceAs (Decidable (m.transpose * m = 1 ∧ m.det = 1))

instance (pts : List (Vector3 K)) : Decidable (NonCollinear pts) :=
  inferInstanceAs (Decidable (∃ a ∈ pts, ∃ b ∈ pts, ∃ c ∈ pts, cross (b - a) (c - a) ≠ 0))

instance (H : Matrix3 K) (svd : JacobiSVD K) : Decidable (IsSVD H svd) :=
  inferInstanceAs (Decidable (_ ∧ _ ∧ _ ∧ _ ∧ _ ∧ _))

/-- The matrix `sum of s * s^T` over the vectors `s` of a list. -/
def gram (L : List (Vector3 K)) : Matrix3 K :=
  fun i j => (L.map (fun s => s i * s j)).sum

/-- The target cloud obtained by moving every point of `cloud` by the rigid motion
`p ↦ R0 * p + t0`. -/
def PointCloud.transform (cloud : PointCloud K) (R0 : Matrix3 K) (t0 : Vector3 K) :
    PointCloud K :=
  ⟨cloud.points.map (fun p => R0.mulVec p + t0)⟩

end RigidTransforms

namespace registration

/-! ## Correspondence rejection -/

/-- `pcl::Correspondence`: the indices of the query (source) point and of the matching (target)
point, and their distance. -/
structure Correspondence (K : Type) where
  index_query : Int
  index_match : Int
  distance : K

/-- `pcl::Correspondences`, a `std::vector<pcl::Correspondence>`. -/
abbrev Correspondences (K : Type) := List (Correspondence K)

/-- The class `CorrespondenceRejector`: its data members and its two abstract methods. The
pointer `input_correspondences_` is `none` while it is null. `applyRejection` receives the stored
input and the content of the caller's vector and either throws or returns the vector's new
content; `getRemainingCorrespondences` receives the original set and the content of the output
vector. -/
structure CorrespondenceRejector (K : Type) where
  rejection_name_ : String
  input_correspondences_ : Option (Correspondences K)
  applyRejection : Option (Correspondences K) → Correspondences K →
    Except String (Correspondences K)
  getRemainingCorrespondences : Correspondences K → Correspondences K →
    Except String (Correspondences K)

/-- What a call of `getCorrespondences` that returns leaves behind: the caller's vector and the
number of calls of `applyRejection` made. -/
structure Filtered (K : Type) where
  correspondences : Correspondences K
  applyRejectionCalls : Nat

/-- What a call of `getRejectedQueryIndices` leaves behind: the caller's `indices` and the
message given to `PCL_WARN`, if any. -/
structure Rejected where
  indices : List Int
  pcl_warn : Option String

section Rejection

variable {K : Type}

/-- The constructor `CorrespondenceRejector ()`: no input correspondences are set. -/
def CorrespondenceRejector.new
    (applyRejection : Option (Correspondences K) → Correspondences K →
      Except String (Correspondences K))
    (getRemainingCorrespondences : Correspondences K → Correspondences K →
      Except String (Correspondences K)) : CorrespondenceRejector K :=
  ⟨"", none, applyRejection, getRemainingCorrespondences⟩

/-- `setInputCorrespondences (correspondences)`. -/
def CorrespondenceRejector.setInputCorrespondences (r : CorrespondenceRejector K)
    (correspondences : Option (Correspondences K)) : CorrespondenceRejector K :=
  { r with input_correspondences_ := correspondences }

/-- `getInputCorrespondences ()`. -/
def CorrespondenceRejector.getInputCorrespondences (r : CorrespondenceRejector K) :
    Option (Correspondences K) :=
  r.input_correspondences_

/-- `getClassName ()`. -/
def CorrespondenceRejector.getClassName (r : CorrespondenceRejector K) : String :=
  r.rejection_name_

/-- `getCorrespondences (correspondences)`, lines 75 to 85. -/
def CorrespondenceRejector.getCorrespondences (r : CorrespondenceRejector K)
    (correspondences : Correspondences K) : Except String (Filtered K) :=
  match r.input_correspondences_ with
  | none => .ok ⟨correspondences, 0⟩
  | some input =>
    if input.isEmpty then
      .ok ⟨correspondences, 0⟩
    else
      match r.applyRejection r.input_correspondences_ correspondences with
      | .error e => .error e
      | .ok out => .ok ⟨out, 1⟩

/-- `compareCorrespondencesDistance (a, b)`, lines 103 to 108. -/
def compareCorrespondencesDistance [LinearOrder K] (a b : Correspondence K) : Bool :=
  decide (a.distance < b.distance)

/-- `std::set_difference` of the C++ standard library on two ranges of `int`, the output being
collected in order (the source writes it through an `inserter`). -/
def set_difference : List Int → List Int → List Int
  | [], _ => []
  | a :: as, [] => a :: as
  | a :: as, b :: bs =>
    if a < b then a :: set_difference as (b :: bs)
    else if b < a then set_difference (a :: as) bs
    else set_difference as bs
termination_by l1 l2 => l1.length + l2.length

/-- `getRejectedQueryIndices (correspondences, indices)`, lines 112 to 139. -/
def CorrespondenceRejector.getRejectedQueryIndices (r : CorrespondenceRejector K)
    (correspondences : Correspondences K) (indices : List Int) : Rejected :=
  let warning := "[pcl::" ++ r.getClassName ++ "::getRejectedQueryIndices] Input " ++
    "correspondences not set (lookup of rejected correspondences _not_ possible).\n"
  match r.input_correspondences_ with
  | none => ⟨indices, some warning⟩
  | some input =>
    if input.isEmpty then
      ⟨indices, some warning⟩
    else
      let indices_before := input.map (fun c => c.index_query)
      let indices_after := correspondences.map (fun c => c.index_query)
      let remaining_indices := set_difference indices_before indices_after
      ⟨remaining_indices, none⟩

/-- Modelled from the spec: a chain of rejection strategies, which is not among the sources
("chaining strategy A's output as strategy B's input"). Every strategy but the last writes into
a fresh vector, which becomes the input of the next strategy; the last one writes into the
caller's vector. -/
def getCorrespondencesChain : List (CorrespondenceRejector K) → Correspondences K →
    Correspondences K → Except String (Filtered K)
  | [], _, out => .ok ⟨out, 0⟩
  | [r], input, out => (r.setInputCorrespondences (some input)).getCorrespondences out
  | r :: r2 :: rs, input, out =>
    match (r.setInputCorrespondences (some input)).getCorrespondences [] with
    | .error e => .error e
    | .ok mid =>
      match getCorrespondencesChain (r2 :: rs) mid.correspondences out with
      | .error e => .error e
      | .ok res => .ok ⟨res.correspondences, mid.applyRejectionCalls + res.applyRejectionCalls⟩

end Rejection

end registration

/-! ## FPFH estimation

`src/libs/include/pcl/features/impl/fpfh_omp.hpp`, `FPFHEstimationOMP::computeFeature`. The two
`#pragma omp parallel for` loops are run in the order of their loop variable. The sizes are
far below the range of `int`, so the casts `(int) ... size ()` do not change them. -/

/-- The output point type (`pcl::FPFHSignature33`): its `histogram` array. -/
structure FPFHSignature (K : Type) where
  histogram : List K

/-- `PointCloudOut`: the `points` of the output cloud. -/
structure PointCloudOut (K : Type) where
  points : List (FPFHSignature K)

/-- The members of `FPFHEstimationOMP` that `computeFeature` reads, and the three member
functions it calls, which are not among the sources and are taken as parameters:

* `surface_size` is `surface_->points.size ()` and `surface_is_input` the comparison of the
  pointers `surface_` and `input_`;
* `searchForNeighbors p_idx search_parameter_` returns the `nn_indices` and `nn_dists` the call
  leaves in its output vectors;
* `computePointSPFHSignature p_idx nn_indices` returns the three rows the call stores in the
  row it is given of `hist_f1_`, `hist_f2_` and `hist_f3_` (`surface_` and `normals_` are fixed);
* `weightPointSPFHSignature hist_f1 hist_f2 hist_f3 nn_indices nn_dists` returns the
  `fpfh_histogram` the call leaves in its output vector. -/
structure FPFHEstimationOMP (K : Type) where
  surface_size : Nat
  surface_is_input : Bool
  indices_ : List Int
  search_parameter_ : K
  nr_bins_f1_ : Nat
  nr_bins_f2_ : Nat
  nr_bins_f3_ : Nat
  searchForNeighbors : Int → K → List Int × List K
  computePointSPFHSignature : Int → List Int → List K × List K × List K
  weightPointSPFHSignature : List (List K) → List (List K) → List (List K) →
    List Int → List K → List K

/-- The state the SPFH loop works on: the three signature matrices (as lists of rows) and the
lookup table from a point index to its row. -/
structure SPFHState (K : Type) where
  hist_f1_ : List (List K)
  hist_f2_ : List (List K)
  hist_f3_ : List (List K)
  spfh_hist_lookup : List Int

/-- What `computeFeature` leaves behind: the candidate list, the state after the SPFH loop and
the output cloud. -/
structure Features (K : Type) where
  spfh_indices_vec : List Int
  spfh : SPFHState K
  output : PointCloudOut K

section FPFH

variable {K : Type}

/-- Writing the elements of `src` one after the other through an iterator that starts at the
first element of `dest` (`std::copy (..., dest.begin ())`, or a loop `dest[d] = src[d]`): the
size of `dest` does not change; elements written past its end are out of bounds (undefined
behaviour) and are not part of `dest`. -/
def copyOnto {α : Type} (src dest : List α) : List α :=
  src.take dest.length ++ dest.drop src.length

/-- `v[i] = x` for an `int` index `i`; an index outside the vector is undefined behaviour in the
source and writes nothing here. -/
def writeAt {α : Type} (v : List α) (i : Int) (x : α) : List α :=
  if 0 ≤ i then v.set i.toNat x else v

/-- `v[i]` for an `int` index `i` into a vector of `int`; an index outside the vector is
undefined behaviour in the source and reads 0 here. -/
def readAt (v : List Int) (i : Int) : Int :=
  if 0 ≤ i then v.getD i.toNat 0 else 0

/-- Lines 58 to 65: the `std::set<int>` that collects the neighbors of every point of
`indices_`. -/
def spfhIndicesSet (e : FPFHEstimationOMP K) : Finset Int :=
  e.indices_.foldl
    (fun spfh_indices_set p_idx =>
      spfh_indices_set ∪ (e.searchForNeighbors p_idx e.search_parameter_).1.toFinset)
    ∅

/-- Lines 47 to 74: the list `spfh_indices_vec` of the points that get an SPFH signature. -/
def spfhIndices (e : FPFHEstimationOMP K) : List Int :=
  let spfh_indices_vec : List Int := []
  if !e.surface_is_input || e.indices_.length ≠ e.surface_size then
    let spfh_indices_set := spfhIndicesSet e
    copyOnto (spfh_indices_set.sort (· ≤ ·)) spfh_indices_vec
  else
    let spfh_indices_vec : List Int := List.replicate e.indices_.length 0
    (List.range e.indices_.length).foldl (fun v idx => v.set idx (idx : Int)) spfh_indices_vec

/-- Lines 85 to 100: one iteration of the SPFH loop. -/
def spfhIteration (e : FPFHEstimationOMP K) (spfh_indices_vec : List Int) (s : SPFHState K)
    (i : Nat) : SPFHState K :=
  let p_idx := spfh_indices_vec.getD i 0
  let nn := e.searchForNeighbors p_idx e.search_parameter_
  let signature := e.computePointSPFHSignature p_idx nn.1
  { hist_f1_ := s.hist_f1_.set i signature.1
    hist_f2_ := s.hist_f2_.set i signature.2.1
    hist_f3_ := s.hist_f3_.set i signature.2.2
    spfh_hist_lookup := writeAt s.spfh_hist_lookup p_idx (i : Int) }

/-- Lines 48 and 76 to 100: the lookup table and the matrices are set to zero and the SPFH loop
runs over `spfh_indices_vec`. -/
def spfhPass [Zero K] (e : FPFHEstimationOMP K) (spfh_indices_vec : List Int) : SPFHState K :=
  let spfh_hist_lookup : List Int := List.replicate e.surface_size 0
  let data_size := spfh_indices_vec.length
  (List.range spfh_indices_vec.length).foldl (spfhIteration e spfh_indices_vec)
    { hist_f1_ := List.replicate data_size (List.replicate e.nr_bins_f1_ 0)
      hist_f2_ := List.replicate data_size (List.replicate e.nr_bins_f2_ 0)
      hist_f3_ := List.replicate data_size (List.replicate e.nr_bins_f3_ 0)
      spfh_hist_lookup := spfh_hist_lookup }

/-- Lines 112 to 121: the histogram `fpfh_histogram` computed for position `idx` of
`indices_`. -/
def fpfhHistogram (e : FPFHEstimationOMP K) (s : SPFHState K) (idx : Nat) : List K :=
  let nn := e.searchForNeighbors (e.indices_.getD idx 0) e.search_parameter_
  let nn_indices := nn.1.map (readAt s.spfh_hist_lookup)
  e.weightPointSPFHSignature s.hist_f1_ s.hist_f2_ s.hist_f3_ nn_indices nn.2

/-- Lines 107 to 126: one iteration of the FPFH loop. -/
def fpfhIteration (e : FPFHEstimationOMP K) (s : SPFHState K) (output : PointCloudOut K)
    (idx : Nat) : PointCloudOut K :=
  let fpfh_histogram := fpfhHistogram e s idx
  match output.points[idx]? with
  | none => output
  | some p => ⟨output.points.set idx ⟨copyOnto fpfh_histogram p.histogram⟩⟩

/-- `FPFHEstimationOMP::computeFeature (output)`, lines 44 to 128. -/
def computeFeature [Zero K] (e : FPFHEstimationOMP K) (output : PointCloudOut K) : Features K :=
  let spfh_indices_vec := spfhIndices e
  let s := spfhPass e spfh_indices_vec
  ⟨spfh_indices_vec, s, (List.range e.indices_.length).foldl (fpfhIteration e s) output⟩

end FPFH

/-! ## Concrete inputs -/

/-- A decomposition with `U` the identity and `V` a reflection, so that
`u.determinant () * v.determinant ()` is negative. -/
def reflectingSVD : Matrix3 ℚ → JacobiSVD ℚ :=
  fun _ => ⟨1, Matrix.diagonal ![1, 1, -1], ![1, 1, 0]⟩

/-- A cloud of four points. -/
def cloudA : PointCloud ℚ :=
  ⟨[![0, 0, 0], ![1, 0, 0], ![0, 1, 0], ![0, 0, 1]]⟩

/-- A cloud of three points. -/
def cloudB : PointCloud ℚ :=
  ⟨[![1, 2, 3], ![1, 3, 3], ![0, 2, 3]]⟩

/-- The three points of `cloudA` with the indices 2, 0 and 1. -/
def cloudC : PointCloud ℚ :=
  ⟨[![0, 1, 0], ![0, 0, 0], ![1, 0, 0]]⟩

/-- The rotation by 90 degrees about the z axis. -/
def rotZ90 : Matrix3 ℚ :=
  !![0, -1, 0; 1, 0, 0; 0, 0, 1]

/-- A regular tetrahedron centred at the origin. -/
def tetrahedron : PointCloud ℚ :=
  ⟨[![1, 1, 1], ![1, -1, -1], ![-1, 1, -1], ![-1, -1, 1]]⟩

/-- A singular value decomposition of the correlation matrix of `tetrahedron` and its image
under `rotZ90` and the translation `(1, 2, 3)`. -/
def tetrahedronSVD : Matrix3 ℚ → JacobiSVD ℚ :=
  fun _ => ⟨1, rotZ90, ![4, 4, 4]⟩

/-- A square in the plane `z = 0`, centred at the origin. -/
def squareCloud : PointCloud ℚ :=
  ⟨[![1, 0, 0], ![-1, 0, 0], ![0, 1, 0], ![0, -1, 0]]⟩

/-- A decomposition `U * S * V^T` of the correlation matrix of `squareCloud` with itself whose
singular values 0, 2, 2 are not in decreasing order, with `det U * det V = -1`. -/
def unsortedSVD : Matrix3 ℚ → JacobiSVD ℚ :=
  fun _ => ⟨!![0, 1, 0; 0, 0, 1; 1, 0, 0], !![0, 1, 0; 0, 0, 1; -1, 0, 0], ![0, 2, 2]⟩

/-- A strategy that throws whenever it is asked to reject. -/
def throwingRejector : registration.CorrespondenceRejector ℚ :=
  registration.CorrespondenceRejector.new (fun _ _ => .error "applyRejection")
    (fun _ _ => .error "getRemainingCorrespondences")

/-- A strategy that keeps the correspondences closer than 1. -/
def thresholdRejector : registration.CorrespondenceRejector ℚ :=
  registration.CorrespondenceRejector.new
    (fun input _ => .ok ((input.getD []).filter (fun c => decide (c.distance < 1))))
    (fun original _ => .ok (original.filter (fun c => decide (c.distance < 1))))

/-- The correspondence with the given query index, match index 0 and distance 1/2. -/
def corr (q : Int) : registration.Correspondence ℚ :=
  ⟨q, 0, 1 / 2⟩

/-- One block of a weighted histogram: for every bin, the sum over the neighbors at a non-zero
distance of the entry of the neighbor's row divided by the distance; the number of bins is
that of the first row of the matrix. -/
def weightedRows (hist : List (List ℚ)) (nn_indices : List Int) (nn_dists : List ℚ) : List ℚ :=
  (List.range (hist.headD []).length).map (fun bin =>
    ((nn_indices.zip nn_dists).map (fun nd =>
      if nd.2 = 0 then 0 else ((hist.getD nd.1.toNat []).getD bin 0) / nd.2)).sum)

/-- An estimator on a surface of two points at distance 1 from each other, with both points of
interest, one bin for each feature, the neighbors of either point being both points, the SPFH
signature of point `p` being `(p + 1, 1, 1)`, and the weighting `weightedRows`. The flag tells
whether the surface is the input cloud itself. -/
def twoPointFPFH (surface_is_input : Bool) : FPFHEstimationOMP ℚ where
  surface_size := 2
  surface_is_input := surface_is_input
  indices_ := [0, 1]
  search_parameter_ := 2
  nr_bins_f1_ := 1
  nr_bins_f2_ := 1
  nr_bins_f3_ := 1
  searchForNeighbors := fun p_idx _ => if p_idx = 0 then ([0, 1], [0, 1]) else ([1, 0], [0, 1])
  computePointSPFHSignature := fun p_idx _ => ([(p_idx : ℚ) + 1], [1], [1])
  weightPointSPFHSignature := fun hist_f1 hist_f2 hist_f3 nn_indices nn_dists =>
    weightedRows hist_f1 nn_indices nn_dists ++ weightedRows hist_f2 nn_indices nn_dists
      ++ weightedRows hist_f3 nn_indices nn_dists

/-- The estimator `twoPointFPFH true` with the point 0 twice in its index list. -/
def repeatedIndexFPFH : FPFHEstimationOMP ℚ :=
  { twoPointFPFH true with indices_ := [0, 0] }

/-- An output cloud of two points whose histograms of three bins hold 9. -/
def outputOfNines : PointCloudOut ℚ :=
  ⟨[⟨[9, 9, 9]⟩, ⟨[9, 9, 9]⟩]⟩

end pcl

/-! ## Theorems: the rigid transform estimator -/

namespace pcl

section RigidTransformsLemmas

variable {K : Type} [LinearOrderedField K]

theorem flipThirdColumn_apply (v : Matrix3 K) (i j : Fin 3) :
    flipThirdColumn v i j = if j = 2 then - v i j else v i j := by
  fin_cases i <;> fin_cases j <;> simp [flipThirdColumn, List.finRange]

theorem flipThirdColumn_eq_mul (v : Matrix3 K) :
    flipThirdColumn v = v * Matrix.diagonal ![1, 1, -1] := by
  ext i j
  rw [flipThirdColumn_apply, Matrix.mul_diagonal]
  fin_cases j <;> simp

theorem IsOrthogonal.mul_transpose {m : Matrix3 K} (h : IsOrthogonal m) :
    m * m.transpose = 1 :=
  Matrix.mul_eq_one_comm.mp h

theorem writeTransformation_one (R : Matrix3 K) (cs ct : Vector4 K) :
    writeTransformation 1 R cs ct = homogeneous R (head3 ct - R.mulVec (head3 cs)) := by
  have h3 : ((3 : Fin 4) : ℕ) = 3 := rfl
  ext i j
  fin_cases i <;> fin_cases j <;>
    simp [writeTransformation, setBlock31, setTopLeftCorner3, homogeneous, h3]

theorem topLeftCorner3_homogeneous (R : Matrix3 K) (t : Vector3 K) :
    topLeftCorner3 (homogeneous R t) = R := by
  ext i j
  fin_cases i <;> fin_cases j <;> simp [topLeftCorner3, homogeneous]

theorem homogeneous_mulVec (R : Matrix3 K) (cs ct : Vector4 K) :
    (homogeneous R (head3 ct - R.mulVec (head3 cs))).mulVec (homogeneousPoint cs)
      = homogeneousPoint ct := by
  have h3 : ((3 : Fin 4) : ℕ) = 3 := rfl
  have h2 : Fin.castSucc (2 : Fin 3) = (2 : Fin 4) := rfl
  ext i
  fin_cases i <;>
    simp [homogeneous, homogeneousPoint, Matrix.mulVec, Matrix.dotProduct, Fin.sum_univ_succ,
      head3, h3, h2] <;> ring

/-- The three overloads, once the lengths agree, all end in the same assembly. -/
theorem estimate_of_length_eq (jacobiSVD : Matrix3 K → JacobiSVD K)
    (cloud_src cloud_tgt : PointCloud K) (M : Matrix4 K)
    (hlen : cloud_src.points.length = cloud_tgt.points.length) :
    estimateRigidTransformationSVD jacobiSVD cloud_src cloud_tgt M =
      ⟨writeTransformation 1
        (rotationOfSVD (jacobiSVD (correlation
          (demeanPointCloud cloud_src (compute3DCentroid cloud_src))
          (demeanPointCloud cloud_tgt (compute3DCentroid cloud_tgt)))))
        (compute3DCentroid cloud_src) (compute3DCentroid cloud_tgt), false⟩ := by
  simp [estimateRigidTransformationSVD, hlen]

theorem gram_nil : gram ([] : List (Vector3 K)) = 0 := by
  ext i j; simp [gram]

theorem gram_cons (s : Vector3 K) (L : List (Vector3 K)) :
    gram (s :: L) = Matrix.vecMulVec s s + gram L := by
  ext i j; simp [gram, Matrix.vecMulVec]

theorem trace_mul_vecMulVec (W : Matrix3 K) (s t : Vector3 K) :
    (W * Matrix.vecMulVec s t).trace = Matrix.dotProduct (W.mulVec s) t := by
  simp [Matrix.trace, Matrix.mul_apply, Matrix.vecMulVec, Matrix.mulVec, Matrix.dotProduct,
    Fin.sum_univ_three]
  ring

theorem dotProduct_mulVec_orthogonal {W : Matrix3 K} (hW : IsOrthogonal W) (s t : Vector3 K) :
    Matrix.dotProduct (W.mulVec s) (W.mulVec t) = Matrix.dotProduct s t := by
  rw [← Matrix.vecMul_transpose, Matrix.dotProduct_mulVec, Matrix.vecMul_vecMul]
  unfold IsOrthogonal at hW
  rw [hW, Matrix.vecMul_one]

theorem two_dotProduct_le (a b : Vector3 K) :
    2 * Matrix.dotProduct a b ≤ Matrix.dotProduct a a + Matrix.dotProduct b b := by
  simp only [Matrix.dotProduct, Fin.sum_univ_three]
  nlinarith [sq_nonneg (a 0 - b 0), sq_nonneg (a 1 - b 1), sq_nonneg (a 2 - b 2)]

theorem trace_mul_gram_le (L : List (Vector3 K)) {W : Matrix3 K} (hW : IsOrthogonal W) :
    (W * gram L).trace ≤ (gram L).trace := by
  induction L with
  | nil => simp [gram_nil]
  | cons s L ih =>
    rw [gram_cons, Matrix.mul_add, Matrix.trace_add, Matrix.trace_add, trace_mul_vecMulVec]
    have h1 : (Matrix.vecMulVec s s).trace = Matrix.dotProduct s s := by
      simp [Matrix.trace, Matrix.vecMulVec, Matrix.dotProduct]
    have h2 := two_dotProduct_le (W.mulVec s) s
    rw [dotProduct_mulVec_orthogonal hW] at h2
    rw [h1]
    linarith

theorem quad_gram_cons (s : Vector3 K) (L : List (Vector3 K)) (u : Vector3 K) :
    Matrix.dotProduct u ((gram (s :: L)).mulVec u)
      = Matrix.dotProduct s u * Matrix.dotProduct s u
        + Matrix.dotProduct u ((gram L).mulVec u) := by
  rw [gram_cons, Matrix.add_mulVec, Matrix.dotProduct_add]
  congr 1
  simp [Matrix.vecMulVec, Matrix.mulVec, Matrix.dotProduct, Fin.sum_univ_three]
  ring

theorem quad_gram_nonneg (L : List (Vector3 K)) (u : Vector3 K) :
    0 ≤ Matrix.dotProduct u ((gram L).mulVec u) := by
  induction L with
  | nil => simp [gram_nil]
  | cons s L ih =>
    rw [quad_gram_cons]
    nlinarith [mul_self_nonneg (Matrix.dotProduct s u)]

theorem dotProduct_eq_zero_of_quad_gram (L : List (Vector3 K)) (u : Vector3 K)
    (h : Matrix.dotProduct u ((gram L).mulVec u) = 0) :
    ∀ s ∈ L, Matrix.dotProduct s u = 0 := by
  induction L with
  | nil => intro s hs; simp at hs
  | cons s L ih =>
    rw [quad_gram_cons] at h
    have h1 := mul_self_nonneg (Matrix.dotProduct s u)
    have h2 := quad_gram_nonneg L u
    have h3 : Matrix.dotProduct s u * Matrix.dotProduct s u = 0 := by linarith
    have h4 : Matrix.dotProduct u ((gram L).mulVec u) = 0 := by linarith
    intro x hx
    rcases List.mem_cons.mp hx with rfl | hx
    · exact mul_self_eq_zero.mp h3
    · exact ih h4 x hx


/-- With `A * R0^T = U * S * V^T`, the matrix `A` is `U * S * Q * U^T` for `Q = V^T * R0 * U`. -/
theorem gram_eq_of_svd {A R0 U V : Matrix3 K} {σ : Vector3 K}
    (hR0 : IsOrthogonal R0) (hU : IsOrthogonal U)
    (hH : A * R0.transpose = U * Matrix.diagonal σ * V.transpose) :
    A = U * Matrix.diagonal σ * (V.transpose * R0 * U) * U.transpose := by
  have hUt := hU.mul_transpose
  unfold IsOrthogonal at hR0
  calc A = A * R0.transpose * R0 := by rw [Matrix.mul_assoc, hR0, Matrix.mul_one]
    _ = U * Matrix.diagonal σ * V.transpose * R0 := by rw [hH]
    _ = U * Matrix.diagonal σ * (V.transpose * R0 * U) * U.transpose := by
      simp only [Matrix.mul_assoc, hUt, Matrix.mul_one]

theorem isOrthogonal_conj {R0 U V : Matrix3 K} (hR0 : IsOrthogonal R0) (hU : IsOrthogonal U)
    (hV : IsOrthogonal V) : IsOrthogonal (V.transpose * R0 * U) := by
  have hVt := hV.mul_transpose
  unfold IsOrthogonal at *
  simp only [Matrix.transpose_mul, Matrix.transpose_transpose, Matrix.mul_assoc]
  rw [← Matrix.mul_assoc V, hVt, Matrix.one_mul, ← Matrix.mul_assoc R0.transpose, hR0,
    Matrix.one_mul, hU]

theorem le_one_of_sum_mul_self {a b c : K} (h : a * a + b * b + c * c = 1) : b ≤ 1 := by
  nlinarith [mul_self_nonneg a, mul_self_nonneg c, mul_self_nonneg (b - 1)]

theorem eq_zero_of_one_add_mul_self {a b : K} (h : 1 + a * a + b * b = 1) :
    a = 0 ∧ b = 0 := by
  have ha : a * a = 0 := by nlinarith [mul_self_nonneg a, mul_self_nonneg b]
  have hb : b * b = 0 := by nlinarith [mul_self_nonneg a, mul_self_nonneg b]
  exact ⟨mul_self_eq_zero.mp ha, mul_self_eq_zero.mp hb⟩

theorem eq_one_of_mul_one_sub {s q : K} (hs : 0 < s) (h : s * (1 - q) = 0) : q = 1 := by
  rcases mul_eq_zero.mp h with h | h
  · exact absurd h hs.ne'
  · linarith

/-- The diagonal entries of an orthogonal matrix are at most 1. -/
theorem IsOrthogonal.diag_le_one {Q : Matrix3 K} (hQ : IsOrthogonal Q) :
    Q 0 0 ≤ 1 ∧ Q 1 1 ≤ 1 ∧ Q 2 2 ≤ 1 := by
  unfold IsOrthogonal at hQ
  have c0 := congrFun (congrFun hQ 0) 0
  have c1 := congrFun (congrFun hQ 1) 1
  have c2 := congrFun (congrFun hQ 2) 2
  simp only [Matrix.mul_apply, Matrix.transpose_apply, Fin.sum_univ_three, Matrix.one_apply_eq]
    at c0 c1 c2
  refine ⟨?_, le_one_of_sum_mul_self c1, ?_⟩
  · exact le_one_of_sum_mul_self (a := Q 1 0) (c := Q 2 0) (by linarith)
  · exact le_one_of_sum_mul_self (a := Q 0 2) (c := Q 1 2) (by linarith)

/-- An orthogonal matrix whose first two diagonal entries are 1 is diagonal, with 1 or -1 as
its last entry. -/
theorem IsOrthogonal.eq_diagonal {Q : Matrix3 K} (hQ : IsOrthogonal Q)
    (e0 : Q 0 0 = 1) (e1 : Q 1 1 = 1) :
    Q = Matrix.diagonal ![1, 1, Q 2 2] ∧ (Q 2 2 - 1) * (Q 2 2 + 1) = 0 := by
  have hQt := hQ.mul_transpose
  unfold IsOrthogonal at hQ
  have c0 := congrFun (congrFun hQ 0) 0
  have c1 := congrFun (congrFun hQ 1) 1
  have c2 := congrFun (congrFun hQ 2) 2
  have r0 := congrFun (congrFun hQt 0) 0
  have r1 := congrFun (congrFun hQt 1) 1
  simp only [Matrix.mul_apply, Matrix.transpose_apply, Fin.sum_univ_three, Matrix.one_apply_eq]
    at c0 c1 c2 r0 r1
  rw [e0] at c0 r0
  rw [e1] at c1 r1
  obtain ⟨z10, z20⟩ := eq_zero_of_one_add_mul_self (a := Q 1 0) (b := Q 2 0) (by linarith)
  obtain ⟨z01, z02⟩ := eq_zero_of_one_add_mul_self (a := Q 0 1) (b := Q 0 2) (by linarith)
  obtain ⟨_, z21⟩ := eq_zero_of_one_add_mul_self (a := Q 0 1) (b := Q 2 1) (by linarith)
  obtain ⟨_, z12⟩ := eq_zero_of_one_add_mul_self (a := Q 1 0) (b := Q 1 2) (by linarith)
  rw [z02, z12] at c2
  constructor
  · ext i j
    fin_cases i <;> fin_cases j <;> simp [e0, e1, z10, z20, z01, z02, z21, z12]
  · linear_combination c2

theorem kabsch_rotation {A R0 U V : Matrix3 K} {σ : Vector3 K}
    (hR0 : IsProperRotation R0) (hU : IsOrthogonal U) (hV : IsOrthogonal V)
    (hH : A * R0.transpose = U * Matrix.diagonal σ * V.transpose)
    (h2 : 0 ≤ σ 2) (h1 : 0 < σ 1) (h0 : σ 1 ≤ σ 0)
    (hG : ∀ W : Matrix3 K, IsOrthogonal W → (W * A).trace ≤ A.trace) :
    rotationOfSVD ⟨U, V, σ⟩ = R0 := by
  have hR0o : IsOrthogonal R0 := hR0.1
  have hUt := hU.mul_transpose
  have hVt := hV.mul_transpose
  have hQo := isOrthogonal_conj hR0o hU hV
  have hA := gram_eq_of_svd hR0o hU hH
  have hdetQ : (V.transpose * R0 * U).det = U.det * V.det := by
    rw [Matrix.det_mul, Matrix.det_mul, Matrix.det_transpose, hR0.2]; ring
  have hVQU : V * (V.transpose * R0 * U) * U.transpose = R0 := by
    simp only [Matrix.mul_assoc, hUt, Matrix.mul_one]
    rw [← Matrix.mul_assoc, hVt, Matrix.one_mul]
  generalize V.transpose * R0 * U = Q at hQo hA hdetQ hVQU
  have hQt := hQo.mul_transpose
  have hUU : U.transpose * U = 1 := hU
  -- the trace of `A` and of the rotated `A`
  have htrA : A.trace = σ 0 * Q 0 0 + σ 1 * Q 1 1 + σ 2 * Q 2 2 := by
    have : A.trace = (Matrix.diagonal σ * Q).trace := by
      rw [hA, Matrix.trace_mul_comm]
      simp only [← Matrix.mul_assoc, hUU, Matrix.one_mul]
    rw [this]
    simp [Matrix.trace, Matrix.diagonal_mul, Fin.sum_univ_three]
  have hWo : IsOrthogonal (U * Q.transpose * U.transpose) := by
    unfold IsOrthogonal
    simp only [Matrix.transpose_mul, Matrix.transpose_transpose, Matrix.mul_assoc]
    rw [← Matrix.mul_assoc U.transpose U, hUU, Matrix.one_mul, ← Matrix.mul_assoc Q, hQt,
      Matrix.one_mul, hUt]
  have htrW : ((U * Q.transpose * U.transpose) * A).trace = σ 0 + σ 1 + σ 2 := by
    have : ((U * Q.transpose * U.transpose) * A).trace = (Matrix.diagonal σ).trace := by
      conv_lhs => rw [hA]
      have e : U * Q.transpose * U.transpose * (U * Matrix.diagonal σ * Q * U.transpose)
          = U * (Q.transpose * Matrix.diagonal σ * Q) * U.transpose := by
        simp only [Matrix.mul_assoc]
        rw [← Matrix.mul_assoc U.transpose U, hUU, Matrix.one_mul]
      rw [e, Matrix.trace_mul_comm, ← Matrix.mul_assoc, hUU, Matrix.one_mul,
        Matrix.mul_assoc, Matrix.trace_mul_comm, Matrix.mul_assoc, hQt, Matrix.mul_one]
    rw [this]
    simp [Matrix.trace, Fin.sum_univ_three]
  have hle := hG _ hWo
  rw [htrW, htrA] at hle
  obtain ⟨q0, q1, q2⟩ := hQo.diag_le_one
  have h0pos : 0 < σ 0 := lt_of_lt_of_le h1 h0
  have t0 : 0 ≤ σ 0 * (1 - Q 0 0) := mul_nonneg h0pos.le (by linarith only [q0])
  have t1 : 0 ≤ σ 1 * (1 - Q 1 1) := mul_nonneg h1.le (by linarith only [q1])
  have t2 : 0 ≤ σ 2 * (1 - Q 2 2) := mul_nonneg h2 (by linarith only [q2])
  have e0 : Q 0 0 = 1 := eq_one_of_mul_one_sub h0pos (by linarith only [hle, t0, t1, t2])
  have e1 : Q 1 1 = 1 := eq_one_of_mul_one_sub h1 (by linarith only [hle, t0, t1, t2])
  obtain ⟨hQd, hsq⟩ := hQo.eq_diagonal e0 e1
  have hdet : Q 2 2 = U.det * V.det := by
    rw [← hdetQ]
    conv_rhs => rw [hQd]
    simp [Matrix.det_diagonal, Fin.prod_univ_three]
  unfold rotationOfSVD
  simp only
  split_ifs with hneg
  · have hq : Q 2 2 = -1 := by
      rcases mul_eq_zero.mp hsq with h | h
      · exfalso; rw [← hdet] at hneg; linarith only [h, hneg]
      · linarith only [h]
    rw [flipThirdColumn_eq_mul, ← hq, ← hQd]
    exact hVQU
  · have hq : Q 2 2 = 1 := by
      rcases mul_eq_zero.mp hsq with h | h
      · linarith only [h]
      · exfalso; rw [← hdet] at hneg; linarith only [h, hneg]
    have hQ1 : Q = 1 := by
      rw [hQd, hq]
      ext i j
      fin_cases i <;> fin_cases j <;> simp
    rw [hQ1, Matrix.mul_one] at hVQU
    exact hVQU

theorem conj_apply_diag (A U : Matrix3 K) (j : Fin 3) :
    Matrix.dotProduct (fun i => U i j) (A.mulVec (fun i => U i j))
      = (U.transpose * A * U) j j := by
  simp only [Matrix.dotProduct, Matrix.mulVec, Matrix.mul_apply, Matrix.transpose_apply,
    Fin.sum_univ_three]
  ring

theorem cross_smul_smul (u : Vector3 K) (x y : K) :
    cross (fun i => x * u i) (fun i => y * u i) = 0 := by
  ext i
  fin_cases i <;> simp [cross] <;> ring

/-- When the two smallest singular values vanish, the points of `L` lie on a line through the
origin. -/
theorem collinear_of_singular_values_zero {L : List (Vector3 K)} {R0 U V : Matrix3 K}
    {σ : Vector3 K} (hR0 : IsOrthogonal R0) (hU : IsOrthogonal U)
    (hH : gram L * R0.transpose = U * Matrix.diagonal σ * V.transpose)
    (h1 : σ 1 = 0) (h2 : σ 2 = 0) :
    ∀ s ∈ L, s = fun i => Matrix.dotProduct s (fun k => U k 0) * U i 0 := by
  have hUt := hU.mul_transpose
  have hUU : U.transpose * U = 1 := hU
  have hA := gram_eq_of_svd hR0 hU hH
  generalize V.transpose * R0 * U = Q at hA
  have hB : U.transpose * gram L * U = Matrix.diagonal σ * Q := by
    conv_lhs => rw [hA]
    simp only [Matrix.mul_assoc, hUU, Matrix.mul_one]
    rw [← Matrix.mul_assoc, hUU, Matrix.one_mul]
  have hq : ∀ j : Fin 3, σ j = 0 →
      Matrix.dotProduct (fun i => U i j) ((gram L).mulVec (fun i => U i j)) = 0 := by
    intro j hj
    rw [conj_apply_diag, hB, Matrix.diagonal_mul, hj, zero_mul]
  have d1 := dotProduct_eq_zero_of_quad_gram L _ (hq 1 h1)
  have d2 := dotProduct_eq_zero_of_quad_gram L _ (hq 2 h2)
  intro s hs
  have e1 := d1 s hs
  have e2 := d2 s hs
  have hs1 : (U * U.transpose).mulVec s = s := by rw [hUt, Matrix.one_mulVec]
  funext i
  have hi := congrFun hs1 i
  simp only [Matrix.dotProduct, Matrix.mulVec, Matrix.mul_apply, Matrix.transpose_apply,
    Fin.sum_univ_three] at hi e1 e2 ⊢
  linear_combination (-1 : K) * hi + U i 1 * e1 + U i 2 * e2

theorem singular_value_pos {L : List (Vector3 K)} {R0 U V : Matrix3 K}
    {σ : Vector3 K} (hR0 : IsOrthogonal R0) (hU : IsOrthogonal U)
    (hH : gram L * R0.transpose = U * Matrix.diagonal σ * V.transpose)
    (h2 : 0 ≤ σ 2) (h21 : σ 2 ≤ σ 1)
    (hnc : ∃ a ∈ L, ∃ b ∈ L, ∃ c ∈ L, cross (b - a) (c - a) ≠ 0) : 0 < σ 1 := by
  by_contra hneg
  have h1 : σ 1 = 0 := le_antisymm (not_lt.mp hneg) (le_trans h2 h21)
  have h2z : σ 2 = 0 := le_antisymm (h1 ▸ h21) h2
  have hcol := collinear_of_singular_values_zero hR0 hU hH h1 h2z
  obtain ⟨a, ha, b, hb, c, hc, hcross⟩ := hnc
  apply hcross
  have ea := hcol a ha
  have eb := hcol b hb
  have ec := hcol c hc
  generalize Matrix.dotProduct a (fun k => U k 0) = x at ea
  generalize Matrix.dotProduct b (fun k => U k 0) = y at eb
  generalize Matrix.dotProduct c (fun k => U k 0) = z at ec
  have e1 : b - a = fun i => (y - x) * U i 0 := by
    rw [ea, eb]; funext i; simp only [Pi.sub_apply]; ring
  have e2 : c - a = fun i => (z - x) * U i 0 := by
    rw [ea, ec]; funext i; simp only [Pi.sub_apply]; ring
  rw [e1, e2]
  exact cross_smul_smul (fun i => U i 0) (y - x) (z - x)


theorem head3_centroidOf (pts : List (Vector3 K)) (j : Fin 3) :
    head3 (centroidOf pts) j = (pts.map (fun p => p j)).sum / (pts.length : K) := by
  have hj : (Fin.castSucc j).val < 3 := j.isLt
  simp only [head3, centroidOf, hj, dif_pos]
  rfl

theorem head3_demeanPoint (c : Vector4 K) (p : Vector3 K) :
    head3 (demeanPoint c p) = p - head3 c := by
  funext j
  have hj : (Fin.castSucc j).val < 3 := j.isLt
  simp only [head3, demeanPoint, hj, dif_pos, Pi.sub_apply]
  rfl

theorem sum_map_transform (R0 : Matrix3 K) (t0 : Vector3 K) (pts : List (Vector3 K))
    (i : Fin 3) :
    ((pts.map (fun p => R0.mulVec p + t0)).map (fun p => p i)).sum
      = R0 i 0 * (pts.map (fun p => p 0)).sum + R0 i 1 * (pts.map (fun p => p 1)).sum
        + R0 i 2 * (pts.map (fun p => p 2)).sum + (pts.length : K) * t0 i := by
  induction pts with
  | nil => simp
  | cons p pts ih =>
    simp only [List.map_cons, List.sum_cons, List.length_cons, Nat.cast_add, Nat.cast_one, ih,
      Pi.add_apply, Matrix.mulVec, Matrix.dotProduct, Fin.sum_univ_three]
    ring

theorem head3_centroidOf_transform (R0 : Matrix3 K) (t0 : Vector3 K) (pts : List (Vector3 K))
    (hne : pts ≠ []) :
    head3 (centroidOf (pts.map (fun p => R0.mulVec p + t0)))
      = R0.mulVec (head3 (centroidOf pts)) + t0 := by
  have hlen : (pts.length : K) ≠ 0 := by
    have : pts.length ≠ 0 := fun h => hne (List.length_eq_zero.mp h)
    exact_mod_cast this
  funext i
  rw [head3_centroidOf, sum_map_transform, List.length_map]
  simp only [Pi.add_apply, Matrix.mulVec, Matrix.dotProduct, Fin.sum_univ_three,
    head3_centroidOf]
  field_simp
  ring

theorem correlation_cons (a b : Vector4 K) (as bs : List (Vector4 K)) :
    correlation (a :: as) (b :: bs)
      = Matrix.vecMulVec (head3 a) (head3 b) + correlation as bs := by
  ext i j
  simp [correlation, topLeftCorner3, mulTranspose, Matrix.vecMulVec, head3]

theorem correlation_nil : correlation ([] : List (Vector4 K)) [] = 0 := by
  ext i j
  simp [correlation, topLeftCorner3, mulTranspose]

theorem vecMulVec_mulVec (s : Vector3 K) (R0 : Matrix3 K) :
    Matrix.vecMulVec s (R0.mulVec s) = Matrix.vecMulVec s s * R0.transpose := by
  ext i j
  simp only [Matrix.vecMulVec, Matrix.mulVec, Matrix.dotProduct, Matrix.mul_apply,
    Matrix.transpose_apply, Fin.sum_univ_three, Matrix.of_apply]
  ring

/-- The correlation matrix of a cloud and its image under `p ↦ R0 * p + t0`. -/
theorem correlation_transform (R0 : Matrix3 K) (t0 : Vector3 K) (cs ct : Vector4 K)
    (hc : head3 ct = R0.mulVec (head3 cs) + t0) (pts : List (Vector3 K)) :
    correlation (pts.map (demeanPoint cs))
        ((pts.map (fun p => R0.mulVec p + t0)).map (demeanPoint ct))
      = gram (pts.map (fun p => p - head3 cs)) * R0.transpose := by
  induction pts with
  | nil => simp [correlation_nil, gram_nil]
  | cons p pts ih =>
    simp only [List.map_cons]
    rw [correlation_cons, gram_cons, Matrix.add_mul, ih, head3_demeanPoint, head3_demeanPoint,
      hc, ← vecMulVec_mulVec]
    congr 2
    rw [Matrix.mulVec_sub, add_sub_add_right_eq_sub]

end RigidTransformsLemmas

/-! ### The concrete inputs -/

section ConcreteInputs

theorem rotZ90_proper : IsProperRotation rotZ90 := by
  constructor
  · ext i j
    fin_cases i <;> fin_cases j <;>
      simp [rotZ90, Matrix.mul_apply, Fin.sum_univ_three, Matrix.transpose_apply,
        Matrix.vecHead, Matrix.vecTail]
  · simp [rotZ90, Matrix.det_fin_three]

theorem tetrahedron_nonCollinear : NonCollinear tetrahedron.points := by
  refine ⟨![1, 1, 1], by simp [tetrahedron], ![1, -1, -1], by simp [tetrahedron],
    ![-1, 1, -1], by simp [tetrahedron], ?_⟩
  intro h
  have h0 := congrFun h 0
  simp [cross] at h0
  norm_num at h0

theorem tetrahedron_correlation :
    correlation (demeanPointCloud tetrahedron (compute3DCentroid tetrahedron))
        (demeanPointCloud (tetrahedron.transform rotZ90 ![1, 2, 3])
          (compute3DCentroid (tetrahedron.transform rotZ90 ![1, 2, 3])))
      = !![0, 4, 0; -4, 0, 0; 0, 0, 4] := by
  ext i j
  fin_cases i <;> fin_cases j <;>
    simp [correlation, topLeftCorner3, mulTranspose, demeanPointCloud, demeanPoint,
      compute3DCentroid, centroidOf, tetrahedron, PointCloud.transform, rotZ90,
      Matrix.mulVec, Matrix.dotProduct, Fin.sum_univ_three, Matrix.vecHead, Matrix.vecTail] <;>
    norm_num

theorem tetrahedronSVD_isSVD :
    IsSVD (correlation (demeanPointCloud tetrahedron (compute3DCentroid tetrahedron))
        (demeanPointCloud (tetrahedron.transform rotZ90 ![1, 2, 3])
          (compute3DCentroid (tetrahedron.transform rotZ90 ![1, 2, 3]))))
      (tetrahedronSVD (correlation (demeanPointCloud tetrahedron (compute3DCentroid tetrahedron))
        (demeanPointCloud (tetrahedron.transform rotZ90 ![1, 2, 3])
          (compute3DCentroid (tetrahedron.transform rotZ90 ![1, 2, 3]))))) := by
  rw [tetrahedron_correlation]
  refine ⟨?_, rotZ90_proper.1, ?_, ?_, ?_, ?_⟩
  · simp [IsOrthogonal, tetrahedronSVD]
  · ext i j
    fin_cases i <;> fin_cases j <;>
      simp [tetrahedronSVD, rotZ90, Matrix.mul_apply, Fin.sum_univ_three, Matrix.diagonal,
        Matrix.transpose_apply, Matrix.vecHead, Matrix.vecTail]
  · simp [tetrahedronSVD]
  · simp [tetrahedronSVD]
  · simp [tetrahedronSVD]

theorem squareCloud_correlation :
    correlation (demeanPointCloud squareCloud (compute3DCentroid squareCloud))
        (demeanPointCloud (squareCloud.transform 1 0)
          (compute3DCentroid (squareCloud.transform 1 0)))
      = !![2, 0, 0; 0, 2, 0; 0, 0, 0] := by
  ext i j
  fin_cases i <;> fin_cases j <;>
    simp [correlation, topLeftCorner3, mulTranspose, demeanPointCloud, demeanPoint,
      compute3DCentroid, centroidOf, squareCloud, PointCloud.transform,
      Matrix.mulVec, Matrix.dotProduct, Fin.sum_univ_three, Matrix.vecHead, Matrix.vecTail] <;>
    norm_num

/-- The order of the singular values matters: `unsortedSVD` decomposes the correlation matrix
of `squareCloud` with itself into orthogonal factors and the singular values 0, 2, 2, and with
it the estimator returns the rotation `diag (1, -1, -1)` although the clouds are related by the
identity. -/
theorem estimate_unsorted_singular_values :
    IsOrthogonal (unsortedSVD 0).matrixU ∧ IsOrthogonal (unsortedSVD 0).matrixV ∧
    correlation (demeanPointCloud squareCloud (compute3DCentroid squareCloud))
        (demeanPointCloud (squareCloud.transform 1 0)
          (compute3DCentroid (squareCloud.transform 1 0)))
      = (unsortedSVD 0).matrixU * Matrix.diagonal (unsortedSVD 0).singularValues
        * (unsortedSVD 0).matrixV.transpose ∧
    (∀ i, 0 ≤ (unsortedSVD 0).singularValues i) ∧
    NonCollinear squareCloud.points ∧
    topLeftCorner3 (estimateRigidTransformationSVD unsortedSVD squareCloud
      (squareCloud.transform 1 0) 0).transformation_matrix
      = !![1, 0, 0; 0, -1, 0; 0, 0, -1] := by
  refine ⟨?_, ?_, ?_, ?_, ?_, ?_⟩
  · ext i j
    fin_cases i <;> fin_cases j <;>
      simp [unsortedSVD, Matrix.mul_apply, Fin.sum_univ_three, Matrix.transpose_apply,
        Matrix.vecHead, Matrix.vecTail]
  · ext i j
    fin_cases i <;> fin_cases j <;>
      simp [unsortedSVD, Matrix.mul_apply, Fin.sum_univ_three, Matrix.transpose_apply,
        Matrix.vecHead, Matrix.vecTail]
  · rw [squareCloud_correlation]
    ext i j
    fin_cases i <;> fin_cases j <;>
      simp [unsortedSVD, Matrix.mul_apply, Fin.sum_univ_three, Matrix.diagonal,
        Matrix.transpose_apply, Matrix.vecHead, Matrix.vecTail]
  · intro i
    fin_cases i <;> simp [unsortedSVD]
  · refine ⟨![1, 0, 0], by simp [squareCloud], ![-1, 0, 0], by simp [squareCloud],
      ![0, 1, 0], by simp [squareCloud], ?_⟩
    intro h
    have h2 := congrFun h 2
    simp [cross] at h2
    norm_num at h2
  · rw [estimate_of_length_eq _ _ _ _ (by simp [PointCloud.transform]),
      writeTransformation_one, topLeftCorner3_homogeneous]
    have hdet : (unsortedSVD 0).matrixU.det * (unsortedSVD 0).matrixV.det < 0 := by
      simp [unsortedSVD, Matrix.det_fin_three]
    unfold rotationOfSVD
    simp only [show ∀ H, unsortedSVD H = unsortedSVD 0 from fun _ => rfl, hdet, if_true,
      flipThirdColumn_eq_mul]
    ext i j
    fin_cases i <;> fin_cases j <;>
      simp [unsortedSVD, Matrix.mul_apply, Fin.sum_univ_three, Matrix.diagonal,
        Matrix.transpose_apply, Matrix.vecHead, Matrix.vecTail]

end ConcreteInputs

section RigidTransformsClaims

variable {K : Type} [LinearOrderedField K]

/-- C1, as the code has it: when the effective lengths differ, each of the three overloads
prints its error and returns with the caller's matrix as it was before the call; the matrix
after the call is the identity exactly when the caller passed the identity. -/
theorem estimate_mismatch_returns_prior (jacobiSVD : Matrix3 K → JacobiSVD K)
    (cloud_src cloud_tgt : PointCloud K) (indices_src indices_tgt : List Int)
    (M : Matrix4 K) :
    (cloud_src.points.length ≠ cloud_tgt.points.length →
      estimateRigidTransformationSVD jacobiSVD cloud_src cloud_tgt M = ⟨M, true⟩ ∧
      ((estimateRigidTransformationSVD jacobiSVD cloud_src cloud_tgt M).transformation_matrix = 1
        ↔ M = 1)) ∧
    (indices_src.length ≠ indices_tgt.length →
      estimateRigidTransformationSVDIndices jacobiSVD cloud_src indices_src cloud_tgt
        indices_tgt M = ⟨M, true⟩ ∧
      ((estimateRigidTransformationSVDIndices jacobiSVD cloud_src indices_src cloud_tgt
        indices_tgt M).transformation_matrix = 1 ↔ M = 1)) ∧
    (indices_src.length ≠ cloud_tgt.points.length →
      estimateRigidTransformationSVDIndicesSrc jacobiSVD cloud_src indices_src cloud_tgt M
        = ⟨M, true⟩ ∧
      ((estimateRigidTransformationSVDIndicesSrc jacobiSVD cloud_src indices_src cloud_tgt
        M).transformation_matrix = 1 ↔ M = 1)) := by
  refine ⟨fun h => ?_, fun h => ?_, fun h => ?_⟩
  · simp [estimateRigidTransformationSVD, h]
  · simp [estimateRigidTransformationSVDIndices, h]
  · simp [estimateRigidTransformationSVDIndicesSrc, h]

/-- C1 at a concrete input: the three overloads on clouds and index lists of different lengths
and the zero matrix. -/
theorem estimate_mismatch_returns_prior_witness :
    estimateRigidTransformationSVD reflectingSVD cloudA cloudB 0 = ⟨0, true⟩ ∧
    estimateRigidTransformationSVDIndices reflectingSVD cloudA [0, 1] cloudB [0] 0
      = ⟨0, true⟩ ∧
    estimateRigidTransformationSVDIndicesSrc reflectingSVD cloudA [0, 1] cloudB 0
      = ⟨0, true⟩ := by
  have h := estimate_mismatch_returns_prior reflectingSVD cloudA cloudB [0, 1] [0] 0
  exact ⟨(h.1 (by decide)).1, (h.2.1 (by decide)).1, (h.2.2 (by decide)).1⟩

/-- C1 as stated fails: a source cloud of four points, a target cloud of three points and the
zero matrix in the caller's variable; after the call the matrix is still zero, not the
identity. -/
theorem estimate_mismatch_not_identity :
    cloudA.points.length ≠ cloudB.points.length ∧
    (estimateRigidTransformationSVD reflectingSVD cloudA cloudB 0).transformation_matrix = 0 ∧
    (estimateRigidTransformationSVD reflectingSVD cloudA cloudB 0).transformation_matrix ≠ 1 := by
  refine ⟨by decide, by simp [estimateRigidTransformationSVD, cloudA, cloudB], ?_⟩
  intro h
  have h00 := congrFun (congrFun h 0) 0
  simp [estimateRigidTransformationSVD, cloudA, cloudB] at h00

/-- C3: for a source sequence that is not collinear (so of at least three points), a proper
rotation `R0`, a translation `t0` and the target `T_i = R0 * S_i + t0`, with any singular value
decomposition of the correlation matrix (orthogonal `U` and `V`, singular values not negative
and in decreasing order), the estimator returns the transform whose rotation block is `R0` and
whose translation is `t0`. -/
theorem estimate_recovers_rigid_motion (jacobiSVD : Matrix3 K → JacobiSVD K)
    (cloud_src : PointCloud K) (R0 : Matrix3 K) (t0 : Vector3 K) (M : Matrix4 K)
    (hR0 : IsProperRotation R0) (hnc : NonCollinear cloud_src.points)
    (hsvd : IsSVD
      (correlation (demeanPointCloud cloud_src (compute3DCentroid cloud_src))
        (demeanPointCloud (cloud_src.transform R0 t0)
          (compute3DCentroid (cloud_src.transform R0 t0))))
      (jacobiSVD
        (correlation (demeanPointCloud cloud_src (compute3DCentroid cloud_src))
          (demeanPointCloud (cloud_src.transform R0 t0)
            (compute3DCentroid (cloud_src.transform R0 t0)))))) :
    estimateRigidTransformationSVD jacobiSVD cloud_src (cloud_src.transform R0 t0) M
      = ⟨homogeneous R0 t0, false⟩ ∧
    topLeftCorner3 (estimateRigidTransformationSVD jacobiSVD cloud_src
      (cloud_src.transform R0 t0) M).transformation_matrix = R0 ∧
    (∀ i : Fin 3, (estimateRigidTransformationSVD jacobiSVD cloud_src
      (cloud_src.transform R0 t0) M).transformation_matrix (Fin.castSucc i) 3 = t0 i) := by
  have hne : cloud_src.points ≠ [] := by
    obtain ⟨a, ha, _⟩ := hnc
    exact List.ne_nil_of_mem ha
  have hc : head3 (compute3DCentroid (cloud_src.transform R0 t0))
      = R0.mulVec (head3 (compute3DCentroid cloud_src)) + t0 :=
    head3_centroidOf_transform R0 t0 cloud_src.points hne
  have hH := correlation_transform R0 t0 (compute3DCentroid cloud_src)
    (compute3DCentroid (cloud_src.transform R0 t0)) hc cloud_src.points
  have hlen : cloud_src.points.length = (cloud_src.transform R0 t0).points.length := by
    simp [PointCloud.transform]
  have hest := estimate_of_length_eq jacobiSVD cloud_src (cloud_src.transform R0 t0) M hlen
  have hH2 : correlation (demeanPointCloud cloud_src (compute3DCentroid cloud_src))
        (demeanPointCloud (cloud_src.transform R0 t0)
          (compute3DCentroid (cloud_src.transform R0 t0)))
      = gram (cloud_src.points.map (fun p => p - head3 (compute3DCentroid cloud_src)))
        * R0.transpose := hH
  rw [hH2] at hsvd hest
  obtain ⟨hU, hV, hdec, h2, h21, h10⟩ := hsvd
  generalize jacobiSVD _ = svd at hU hV hdec h2 h21 h10 hest
  obtain ⟨U, V, σ⟩ := svd
  simp only at hU hV hdec h2 h21 h10
  have hnc2 : ∃ a ∈ cloud_src.points.map (fun p => p - head3 (compute3DCentroid cloud_src)),
      ∃ b ∈ cloud_src.points.map (fun p => p - head3 (compute3DCentroid cloud_src)),
      ∃ c ∈ cloud_src.points.map (fun p => p - head3 (compute3DCentroid cloud_src)),
      cross (b - a) (c - a) ≠ 0 := by
    obtain ⟨a, ha, b, hb, c, hc2, hx⟩ := hnc
    refine ⟨_, List.mem_map_of_mem _ ha, _, List.mem_map_of_mem _ hb, _,
      List.mem_map_of_mem _ hc2, ?_⟩
    simpa only [sub_sub_sub_cancel_right] using hx
  have h1pos := singular_value_pos hR0.1 hU hdec h2 h21 hnc2
  have hR := kabsch_rotation hR0 hU hV hdec h2 h1pos h10
    (fun W hW => trace_mul_gram_le _ hW)
  rw [hR, writeTransformation_one, hc] at hest
  have ht : R0.mulVec (head3 (compute3DCentroid cloud_src)) + t0
      - R0.mulVec (head3 (compute3DCentroid cloud_src)) = t0 := add_sub_cancel_left _ _
  rw [ht] at hest
  rw [hest]
  have h3 : ((3 : Fin 4) : ℕ) = 3 := rfl
  refine ⟨rfl, topLeftCorner3_homogeneous R0 t0, ?_⟩
  intro i
  fin_cases i <;> simp [homogeneous, h3]


/-- C3 at a concrete input: a tetrahedron and its image under the rotation by 90 degrees
about the z axis followed by the translation `(1, 2, 3)`. -/
theorem estimate_recovers_rigid_motion_witness :
    estimateRigidTransformationSVD tetrahedronSVD tetrahedron
        (tetrahedron.transform rotZ90 ![1, 2, 3]) 0
      = ⟨homogeneous rotZ90 ![1, 2, 3], false⟩ :=
  (estimate_recovers_rigid_motion tetrahedronSVD tetrahedron rotZ90 ![1, 2, 3] 0
    rotZ90_proper tetrahedron_nonCollinear tetrahedronSVD_isSVD).1

/-- C5: on inputs of equal length the matrix written is `[R t; 0 0 0 1]` whatever the caller's
matrix held: the top left block is the rotation `R`, the last column is
`t = centroid_tgt - R * centroid_src`, the bottom row is `(0, 0, 0, 1)`, and the transform
maps the source centroid onto the target centroid. -/
theorem estimate_is_homogeneous (jacobiSVD : Matrix3 K → JacobiSVD K)
    (cloud_src cloud_tgt : PointCloud K) (M : Matrix4 K)
    (hlen : cloud_src.points.length = cloud_tgt.points.length) :
    let centroid_src := compute3DCentroid cloud_src
    let centroid_tgt := compute3DCentroid cloud_tgt
    let R := rotationOfSVD (jacobiSVD (correlation (demeanPointCloud cloud_src centroid_src)
      (demeanPointCloud cloud_tgt centroid_tgt)))
    let T := (estimateRigidTransformationSVD jacobiSVD cloud_src cloud_tgt M).transformation_matrix
    T = homogeneous R (head3 centroid_tgt - R.mulVec (head3 centroid_src)) ∧
    topLeftCorner3 T = R ∧
    (∀ i : Fin 3, T (Fin.castSucc i) 3
      = centroid_tgt (Fin.castSucc i) - R.mulVec (head3 centroid_src) i) ∧
    (T 3 0 = 0 ∧ T 3 1 = 0 ∧ T 3 2 = 0 ∧ T 3 3 = 1) ∧
    T.mulVec (homogeneousPoint centroid_src) = homogeneousPoint centroid_tgt := by
  intro centroid_src centroid_tgt R T
  have hT : T = homogeneous R (head3 centroid_tgt - R.mulVec (head3 centroid_src)) := by
    show (estimateRigidTransformationSVD jacobiSVD cloud_src cloud_tgt M).transformation_matrix
      = _
    rw [estimate_of_length_eq _ _ _ _ hlen, writeTransformation_one]
  have h3 : ((3 : Fin 4) : ℕ) = 3 := rfl
  refine ⟨hT, ?_, ?_, ?_, ?_⟩
  · rw [hT, topLeftCorner3_homogeneous]
  · intro i
    rw [hT]
    fin_cases i <;> simp [homogeneous, head3, h3]
  · rw [hT]
    simp [homogeneous, h3]
  · rw [hT]
    exact homogeneous_mulVec R centroid_src centroid_tgt

/-- C5 at a concrete input: the bottom row written over a matrix of zeros is `(0, 0, 0, 1)` and
the source centroid is mapped onto the target centroid. -/
theorem estimate_is_homogeneous_witness :
    ((estimateRigidTransformationSVD reflectingSVD cloudC cloudB 0).transformation_matrix 3 0 = 0
      ∧ (estimateRigidTransformationSVD reflectingSVD cloudC cloudB 0).transformation_matrix 3 1
        = 0
      ∧ (estimateRigidTransformationSVD reflectingSVD cloudC cloudB 0).transformation_matrix 3 2
        = 0
      ∧ (estimateRigidTransformationSVD reflectingSVD cloudC cloudB 0).transformation_matrix 3 3
        = 1) ∧
    (estimateRigidTransformationSVD reflectingSVD cloudC cloudB 0).transformation_matrix.mulVec
      (homogeneousPoint (compute3DCentroid cloudC)) = homogeneousPoint (compute3DCentroid cloudB) :=
  ⟨(estimate_is_homogeneous reflectingSVD cloudC cloudB 0 (by decide)).2.2.2.1,
    (estimate_is_homogeneous reflectingSVD cloudC cloudB 0 (by decide)).2.2.2.2⟩

end RigidTransformsClaims

end pcl

/-! ## Theorems: correspondence rejection -/

namespace pcl

namespace registration

section RejectionLemmas

variable {K : Type}

theorem getCorrespondences_of_input_empty (r : CorrespondenceRejector K)
    (h : r.input_correspondences_ = none ∨ r.input_correspondences_ = some [])
    (correspondences : Correspondences K) :
    r.getCorrespondences correspondences = .ok ⟨correspondences, 0⟩ := by
  rcases h with h | h <;> simp [CorrespondenceRejector.getCorrespondences, h]

theorem set_difference_eq_filter : ∀ (l1 l2 : List Int),
    l1.Sorted (· < ·) → l2.Sorted (· < ·) →
    set_difference l1 l2 = l1.filter (fun q => decide (q ∉ l2))
  | [], l2, _, _ => by simp [set_difference]
  | a :: as, [], _, _ => by simp [set_difference]
  | a :: as, b :: bs, h1, h2 => by
    have h1t := List.Sorted.of_cons h1
    have h2t := List.Sorted.of_cons h2
    have ha := List.rel_of_sorted_cons h1
    have hb := List.rel_of_sorted_cons h2
    rw [set_difference]
    split_ifs with hab hba
    · rw [set_difference_eq_filter as (b :: bs) h1t h2]
      have hnot : a ∉ b :: bs := by
        intro hm
        rcases List.mem_cons.mp hm with h | h
        · omega
        · have := hb a h; omega
      rw [List.filter_cons_of_pos (by simpa using hnot)]
    · rw [set_difference_eq_filter (a :: as) bs h1 h2t]
      apply List.filter_congr
      intro x hx
      have hxa : a ≤ x := by
        rcases List.mem_cons.mp hx with h | h
        · omega
        · exact le_of_lt (ha x h)
      have : x ≠ b := by omega
      simp [this]
    · have hEq : a = b := by omega
      subst hEq
      rw [set_difference_eq_filter as bs h1t h2t]
      rw [List.filter_cons_of_neg (by simp)]
      apply List.filter_congr
      intro x hx
      have : x ≠ a := by have := ha x hx; omega
      simp [this]
termination_by l1 l2 => l1.length + l2.length

end RejectionLemmas

section RejectionClaims

variable {K : Type}

/-- C6: when no input correspondences were set, or the stored input set is empty,
`getCorrespondences` returns without an error, leaves the caller's vector as it was and does not
call `applyRejection`, whatever the strategy and the vector. -/
theorem getCorrespondences_noop (r : CorrespondenceRejector K)
    (correspondences : Correspondences K)
    (h : r.input_correspondences_ = none ∨ r.input_correspondences_ = some []) :
    r.getCorrespondences correspondences = .ok ⟨correspondences, 0⟩ ∧
    ((r.getCorrespondences correspondences).toOption.map (fun res => res.correspondences)
      = some correspondences) ∧
    ((r.getCorrespondences correspondences).toOption.map (fun res => res.applyRejectionCalls)
      = some 0) := by
  have hr := getCorrespondences_of_input_empty r h correspondences
  rw [hr]
  exact ⟨rfl, rfl, rfl⟩

/-- C6 at a concrete input: a strategy whose `applyRejection` throws, no input set, a vector
holding one correspondence. -/
theorem getCorrespondences_noop_witness :
    throwingRejector.getCorrespondences [corr 5] = .ok ⟨[corr 5], 0⟩ :=
  (getCorrespondences_noop throwingRejector [corr 5] (Or.inl rfl)).1

/-- C7, as the code has it: a strategy, or a chain of strategies, given the empty correspondence
set returns without an error and without calling any `applyRejection`, and the caller's vector
holds what it held before; it is empty after the call exactly when it was empty before. -/
theorem getCorrespondences_empty_input_keeps_output (r : CorrespondenceRejector K)
    (chain : List (CorrespondenceRejector K)) (correspondences : Correspondences K) :
    (r.setInputCorrespondences (some [])).getCorrespondences correspondences
      = .ok ⟨correspondences, 0⟩ ∧
    getCorrespondencesChain chain [] correspondences = .ok ⟨correspondences, 0⟩ ∧
    (∀ res, getCorrespondencesChain chain [] correspondences = .ok res →
      (res.correspondences = [] ↔ correspondences = [])) := by
  have hone : ∀ (r : CorrespondenceRejector K) (out : Correspondences K),
      (r.setInputCorrespondences (some [])).getCorrespondences out = .ok ⟨out, 0⟩ := by
    intro r out
    exact getCorrespondences_of_input_empty _ (Or.inr rfl) out
  have hchain : getCorrespondencesChain chain [] correspondences = .ok ⟨correspondences, 0⟩ := by
    induction chain with
    | nil => rfl
    | cons r rs ih =>
      cases rs with
      | nil => exact hone r correspondences
      | cons r2 rs => simp only [getCorrespondencesChain, hone r [], ih]
  refine ⟨hone r correspondences, hchain, ?_⟩
  intro res hres
  rw [hchain] at hres
  cases hres
  exact Iff.rfl

/-- C7 as stated fails: a threshold strategy whose input set is empty, called with a vector that
holds one correspondence, returns that correspondence, not the empty set. -/
theorem getCorrespondences_empty_input_not_empty :
    (thresholdRejector.setInputCorrespondences (some [])).getCorrespondences [corr 5]
      = .ok ⟨[corr 5], 0⟩ ∧
    [corr 5] ≠ [] := by
  constructor
  · rfl
  · simp

/-- C8: with a stored input set that is not empty, and query indices strictly ascending in
both the input set and the filtered set, `getRejectedQueryIndices` sets `indices` to the query
indices of the input set that do not occur in the filtered set, in ascending order and each
once, without a warning. -/
theorem getRejectedQueryIndices_set_difference (r : CorrespondenceRejector K)
    (input correspondences : Correspondences K) (indices : List Int)
    (hinput : r.input_correspondences_ = some input) (hne : input ≠ [])
    (hbefore : (input.map (fun c => c.index_query)).Sorted (· < ·))
    (hafter : (correspondences.map (fun c => c.index_query)).Sorted (· < ·)) :
    (r.getRejectedQueryIndices correspondences indices).indices
      = (input.map (fun c => c.index_query)).filter
          (fun q => decide (q ∉ correspondences.map (fun c => c.index_query))) ∧
    (r.getRejectedQueryIndices correspondences indices).indices.Sorted (· < ·) ∧
    (∀ q, q ∈ (r.getRejectedQueryIndices correspondences indices).indices ↔
      q ∈ input.map (fun c => c.index_query) ∧
        q ∉ correspondences.map (fun c => c.index_query)) ∧
    (r.getRejectedQueryIndices correspondences indices).pcl_warn = none := by
  have hres : r.getRejectedQueryIndices correspondences indices
      = ⟨(input.map (fun c => c.index_query)).filter
          (fun q => decide (q ∉ correspondences.map (fun c => c.index_query))), none⟩ := by
    have hemp : input.isEmpty = false := by
      cases input with
      | nil => exact absurd rfl hne
      | cons c cs => rfl
    simp only [CorrespondenceRejector.getRejectedQueryIndices, hinput, hemp, Bool.false_eq_true,
      if_false]
    rw [set_difference_eq_filter _ _ hbefore hafter]
  rw [hres]
  refine ⟨rfl, ?_, ?_, rfl⟩
  · exact List.Sorted.filter _ hbefore
  · intro q
    simp [List.mem_filter]

/-- C8 at a concrete input: of the query indices 1, 2, 4, 7 the filtered set keeps 1 and 7; the
rejected ones are 2 and 4, and the previous content of `indices` is gone. -/
theorem getRejectedQueryIndices_set_difference_witness :
    ((thresholdRejector.setInputCorrespondences
      (some [corr 1, corr 2, corr 4, corr 7])).getRejectedQueryIndices
        [corr 1, corr 7] [9, 9]).indices = [2, 4] := by
  have h := (getRejectedQueryIndices_set_difference
    (thresholdRejector.setInputCorrespondences (some [corr 1, corr 2, corr 4, corr 7]))
    [corr 1, corr 2, corr 4, corr 7] [corr 1, corr 7] [9, 9] rfl (by simp)
    (by simp [corr]) (by simp [corr])).1
  rw [h]
  simp [corr]

/-- C9, as the code has it: when `getRejectedQueryIndices` is called on a rejector whose input
correspondences were never set, it emits its warning and returns with the caller's `indices` as
they were before the call; they are empty after the call exactly when they were empty before. -/
theorem getRejectedQueryIndices_unset_keeps_indices (r : CorrespondenceRejector K)
    (correspondences : Correspondences K) (indices : List Int)
    (h : r.input_correspondences_ = none) :
    (r.getRejectedQueryIndices correspondences indices).indices = indices ∧
    ((r.getRejectedQueryIndices correspondences indices).indices = [] ↔ indices = []) ∧
    (r.getRejectedQueryIndices correspondences indices).pcl_warn.isSome = true := by
  simp [CorrespondenceRejector.getRejectedQueryIndices, h]

/-- C9 at a concrete input: a freshly constructed rejector and an `indices` vector holding 9, 9. -/
theorem getRejectedQueryIndices_unset_keeps_indices_witness :
    (throwingRejector.getRejectedQueryIndices [corr 1] [9, 9]).indices = [9, 9] :=
  (getRejectedQueryIndices_unset_keeps_indices throwingRejector [corr 1] [9, 9] rfl).1

/-- C9 as stated fails: on a freshly constructed rejector, with 9, 9 in the caller's `indices`,
the vector after the call still holds 9, 9 and is not empty. -/
theorem getRejectedQueryIndices_unset_not_empty :
    throwingRejector.input_correspondences_ = none ∧
    (throwingRejector.getRejectedQueryIndices [corr 1] [9, 9]).indices = [9, 9] ∧
    (throwingRejector.getRejectedQueryIndices [corr 1] [9, 9]).indices ≠ [] := by
  refine ⟨rfl, rfl, ?_⟩
  simp [CorrespondenceRejector.getRejectedQueryIndices, throwingRejector,
    CorrespondenceRejector.new]

/-- C10: `compareCorrespondencesDistance (a, b)` holds exactly when `a.distance < b.distance`,
whatever the indices are; it is irreflexive, asymmetric and transitive, being equivalent under
it is transitive, and a sequence in which no later element compares less than an earlier one
(what sorting with it produces) has ascending distances. -/
theorem compareCorrespondencesDistance_strict_weak_order [LinearOrder K] :
    (∀ a b : Correspondence K,
      compareCorrespondencesDistance a b = true ↔ a.distance < b.distance) ∧
    (∀ (q q2 m m2 : Int) (a b : Correspondence K),
      compareCorrespondencesDistance ⟨q, m, a.distance⟩ ⟨q2, m2, b.distance⟩
        = compareCorrespondencesDistance a b) ∧
    (∀ a : Correspondence K, compareCorrespondencesDistance a a = false) ∧
    (∀ a b : Correspondence K, compareCorrespondencesDistance a b = true →
      compareCorrespondencesDistance b a = false) ∧
    (∀ a b c : Correspondence K, compareCorrespondencesDistance a b = true →
      compareCorrespondencesDistance b c = true → compareCorrespondencesDistance a c = true) ∧
    (∀ a b c : Correspondence K,
      compareCorrespondencesDistance a b = false ∧ compareCorrespondencesDistance b a = false →
      compareCorrespondencesDistance b c = false ∧ compareCorrespondencesDistance c b = false →
      compareCorrespondencesDistance a c = false ∧ compareCorrespondencesDistance c a = false) ∧
    (∀ l : Correspondences K,
      l.Pairwise (fun a b => compareCorrespondencesDistance b a = false) →
      (l.map (fun c => c.distance)).Sorted (· ≤ ·)) := by
  refine ⟨?_, ?_, ?_, ?_, ?_, ?_, ?_⟩
  · intro a b
    simp [compareCorrespondencesDistance]
  · intro q q2 m m2 a b
    rfl
  · intro a
    simp [compareCorrespondencesDistance]
  · intro a b h
    simp only [compareCorrespondencesDistance, decide_eq_true_eq, decide_eq_false_iff_not,
      not_lt] at *
    exact le_of_lt h
  · intro a b c h1 h2
    simp only [compareCorrespondencesDistance, decide_eq_true_eq] at *
    exact lt_trans h1 h2
  · intro a b c h1 h2
    simp only [compareCorrespondencesDistance, decide_eq_false_iff_not, not_lt] at *
    exact ⟨le_trans h2.1 h1.1, le_trans h1.2 h2.2⟩
  · intro l hl
    unfold List.Sorted
    rw [List.pairwise_map]
    refine hl.imp ?_
    intro a b h
    simpa [compareCorrespondencesDistance] using h

/-- C10 at a concrete input: three correspondences with the distances 1/2, 1/2 and 3, no later
one comparing less than an earlier one, are in ascending order of distance. -/
theorem compareCorrespondencesDistance_strict_weak_order_witness :
    ([corr 8, corr 3, (⟨1, 1, 3⟩ : Correspondence ℚ)].map (fun c => c.distance)).Sorted
      (· ≤ ·) :=
  compareCorrespondencesDistance_strict_weak_order.2.2.2.2.2.2
    [corr 8, corr 3, ⟨1, 1, 3⟩] (by simp [compareCorrespondencesDistance, corr]; norm_num)

end RejectionClaims

end registration

end pcl

/-! ## Theorems: FPFH estimation -/

namespace pcl

section FPFHLemmas

variable {K : Type}

theorem foldl_range_succ {β : Type} (g : β → Nat → β) (b : β) (m : Nat) :
    (List.range (m + 1)).foldl g b = g ((List.range m).foldl g b) m := by
  rw [List.range_succ, List.foldl_append]
  rfl

theorem length_copyOnto {α : Type} (src dest : List α) :
    (copyOnto src dest).length = dest.length := by
  simp only [copyOnto, List.length_append, List.length_take, List.length_drop]
  omega

theorem copyOnto_nil {α : Type} (src : List α) : copyOnto src [] = [] := by
  simp [copyOnto]

theorem length_writeAt {α : Type} (v : List α) (i : Int) (x : α) :
    (writeAt v i x).length = v.length := by
  unfold writeAt
  split_ifs <;> simp

theorem readAt_writeAt_self (v : List Int) (p x : Int) (h0 : 0 ≤ p) (h1 : p.toNat < v.length) :
    readAt (writeAt v p x) p = x := by
  simp [readAt, writeAt, h0, h1]

theorem readAt_writeAt_ne (v : List Int) (p q x : Int) (h : p ≠ q) :
    readAt (writeAt v p x) q = readAt v q := by
  unfold readAt writeAt
  by_cases hq : 0 ≤ q
  · by_cases hp : 0 ≤ p
    · have hne : p.toNat ≠ q.toNat := by omega
      simp [hq, hp, List.getElem?_set_ne hne]
    · simp [hp]
  · simp [hq]

/-! ### The candidate list -/

theorem length_fill (n m : Nat) :
    ((List.range m).foldl (fun v idx => v.set idx (idx : Int)) (List.replicate n 0)).length
      = n := by
  induction m with
  | zero => simp
  | succ m ih => rw [foldl_range_succ, List.length_set, ih]

theorem getElem?_fill (n m j : Nat) :
    ((List.range m).foldl (fun v idx => v.set idx (idx : Int)) (List.replicate n 0))[j]?
      = if j < n then (if j < m then some (j : Int) else some 0) else none := by
  induction m with
  | zero =>
    simp only [List.range_zero, List.foldl_nil, Nat.not_lt_zero, if_false]
    by_cases hj : j < n
    · simp [hj, List.getElem?_replicate]
    · simp [hj, List.getElem?_replicate]
  | succ m ih =>
    rw [foldl_range_succ, List.getElem?_set, length_fill, ih]
    by_cases hmj : m = j
    · subst hmj
      by_cases hn : m < n <;> simp [hn]
    · by_cases hn : j < n
      · by_cases hjm : j < m
        · have : j < m + 1 := by omega
          simp [hmj, hn, hjm, this]
        · have : ¬ j < m + 1 := by omega
          simp [hmj, hn, hjm, this]
      · simp [hmj, hn]

theorem fill_eq (n : Nat) :
    (List.range n).foldl (fun v idx => v.set idx (idx : Int)) (List.replicate n 0)
      = (List.range n).map (fun idx : Nat => (idx : Int)) := by
  apply List.ext_getElem?
  intro j
  rw [getElem?_fill]
  by_cases hj : j < n
  · simp [hj, List.getElem?_range hj]
  · have : (List.range n).length ≤ j := by simpa using hj
    simp [hj, List.getElem?_eq_none this]

/-- In the general path the candidate list has no elements: nothing gives it a size before the
set is copied onto it. -/
theorem spfhIndices_general (e : FPFHEstimationOMP K)
    (h : e.surface_is_input = false ∨ e.indices_.length ≠ e.surface_size) :
    spfhIndices e = [] := by
  unfold spfhIndices
  have hc : (!e.surface_is_input || decide (e.indices_.length ≠ e.surface_size)) = true := by
    rcases h with h | h
    · simp [h]
    · simp [h]
  simp only [hc, if_true, copyOnto_nil]

/-- In the fast path the candidate list is `0, 1, ..., n - 1`. -/
theorem spfhIndices_fast (e : FPFHEstimationOMP K) (h1 : e.surface_is_input = true)
    (h2 : e.indices_.length = e.surface_size) :
    spfhIndices e = (List.range e.surface_size).map (fun idx : Nat => (idx : Int)) := by
  unfold spfhIndices
  have hc : (!e.surface_is_input || decide (e.indices_.length ≠ e.surface_size)) = false := by
    simp [h1, h2]
  rw [if_neg (by rw [hc]; decide), fill_eq, h2]

/-! ### The lookup table -/

theorem spfhFold_lookup (e : FPFHEstimationOMP K) (vec : List Int) (s : SPFHState K) (m : Nat) :
    ((List.range m).foldl (spfhIteration e vec) s).spfh_hist_lookup
      = (List.range m).foldl (fun l i => writeAt l (vec.getD i 0) (i : Int))
          s.spfh_hist_lookup := by
  induction m with
  | zero => rfl
  | succ m ih => rw [foldl_range_succ, foldl_range_succ, ← ih]; rfl

theorem spfhPass_lookup [Zero K] (e : FPFHEstimationOMP K) (vec : List Int) :
    (spfhPass e vec).spfh_hist_lookup
      = (List.range vec.length).foldl (fun l i => writeAt l (vec.getD i 0) (i : Int))
          (List.replicate e.surface_size 0) := by
  unfold spfhPass
  rw [spfhFold_lookup]

theorem length_lookupFold (vec init : List Int) (m : Nat) :
    ((List.range m).foldl (fun l i => writeAt l (vec.getD i 0) (i : Int)) init).length
      = init.length := by
  induction m with
  | zero => rfl
  | succ m ih => rw [foldl_range_succ, length_writeAt, ih]

/-- A slot that no iteration writes keeps its initial value. -/
theorem readAt_lookupFold_of_not_mem (vec init : List Int) (p : Int) (m : Nat)
    (h : ∀ i < m, vec.getD i 0 ≠ p) :
    readAt ((List.range m).foldl (fun l i => writeAt l (vec.getD i 0) (i : Int)) init) p
      = readAt init p := by
  induction m with
  | zero => rfl
  | succ m ih =>
    rw [foldl_range_succ, readAt_writeAt_ne _ _ _ _ (h m (Nat.lt_succ_self m))]
    exact ih (fun i hi => h i (Nat.lt_succ_of_lt hi))

/-- Without duplicates in the candidate list, and with every candidate inside the table, the
slot of candidate `i` holds `i` after the loop. -/
theorem readAt_lookupFold (vec init : List Int) (hnd : vec.Nodup)
    (hr : ∀ p ∈ vec, 0 ≤ p ∧ p.toNat < init.length) (m : Nat) (hm : m ≤ vec.length)
    (i : Nat) (hi : i < m) :
    readAt ((List.range m).foldl (fun l i => writeAt l (vec.getD i 0) (i : Int)) init)
      (vec.getD i 0) = (i : Int) := by
  induction m with
  | zero => exact absurd hi (Nat.not_lt_zero i)
  | succ m ih =>
    rw [foldl_range_succ]
    have hmlt : m < vec.length := hm
    by_cases him : i = m
    · subst him
      have hmem : vec.getD i 0 ∈ vec := by
        rw [List.getD_eq_getElem _ _ hmlt]
        exact List.getElem_mem _
      have hrange := hr _ hmem
      exact readAt_writeAt_self _ _ _ hrange.1 (by rw [length_lookupFold]; exact hrange.2)
    · have hilt : i < m := by omega
      have hivec : i < vec.length := by omega
      have hne : vec.getD m 0 ≠ vec.getD i 0 := by
        rw [List.getD_eq_getElem _ _ hmlt, List.getD_eq_getElem _ _ hivec]
        intro heq
        exact him ((hnd.getElem_inj_iff).mp heq).symm
      rw [readAt_writeAt_ne _ _ _ _ hne]
      exact ih (by omega) hilt

end FPFHLemmas

section FPFHLemmas2

variable {K : Type}

/-! ### The FPFH loop -/

/-- A list of `n` integers without duplicates, all of them from 0 to `n - 1`, holds every one
of these numbers. -/
theorem mem_of_nodup_of_range (l : List Int) (n : Nat) (hlen : l.length = n) (hnd : l.Nodup)
    (hr : ∀ p ∈ l, 0 ≤ p ∧ p < n) (j : Nat) (hj : j < n) : (j : Int) ∈ l := by
  have hnd2 : (l.map Int.toNat).Nodup := by
    apply List.Nodup.map_on _ hnd
    intro x hx y hy hxy
    have := (hr x hx).1
    have := (hr y hy).1
    omega
  have hsub : l.map Int.toNat ⊆ List.range n := by
    intro x hx
    obtain ⟨p, hp, rfl⟩ := List.mem_map.mp hx
    have := hr p hp
    exact List.mem_range.mpr (by omega)
  have hperm : (l.map Int.toNat).Perm (List.range n) :=
    (List.subperm_of_subset hnd2 hsub).perm_of_length_le (by simp [hlen])
  have hmem : j ∈ l.map Int.toNat := hperm.mem_iff.mpr (List.mem_range.mpr hj)
  obtain ⟨p, hp, hpj⟩ := List.mem_map.mp hmem
  have := (hr p hp).1
  have hpe : p = (j : Int) := by omega
  rw [← hpe]
  exact hp

end FPFHLemmas2

section FPFHClaims

variable {K : Type} [Zero K]

end FPFHClaims

section FPFHLemmas3
variable {K : Type} [Zero K]

/-- The candidate list of the fast path has no duplicates and lies inside the lookup table. -/
theorem fast_candidates (n : Nat) :
    ((List.range n).map (fun idx : Nat => (idx : Int))).Nodup ∧
    ∀ p ∈ (List.range n).map (fun idx : Nat => (idx : Int)), 0 ≤ p ∧ p.toNat < n := by
  constructor
  · exact List.Nodup.map (fun a b h => by exact_mod_cast h) (List.nodup_range n)
  · intro p hp
    obtain ⟨i, hi, rfl⟩ := List.mem_map.mp hp
    have := List.mem_range.mp hi
    constructor
    · omega
    · simpa using this

/-- In the fast path every point of the surface is a candidate and the lookup table sends it to
itself, which is the row its SPFH signature was stored in. -/
theorem fast_path_lookup (e : FPFHEstimationOMP K) (output : PointCloudOut K)
    (h1 : e.surface_is_input = true) (h2 : e.indices_.length = e.surface_size)
    (n : Int) (hn : 0 ≤ n ∧ n < e.surface_size) :
    n ∈ (computeFeature e output).spfh_indices_vec ∧
    readAt (computeFeature e output).spfh.spfh_hist_lookup n = n ∧
    (computeFeature e output).spfh_indices_vec.getD n.toNat 0 = n := by
  have hvec : (computeFeature e output).spfh_indices_vec
      = (List.range e.surface_size).map (fun idx : Nat => (idx : Int)) :=
    spfhIndices_fast e h1 h2
  have hlook : (computeFeature e output).spfh.spfh_hist_lookup
      = (List.range ((List.range e.surface_size).map (fun idx : Nat => (idx : Int))).length).foldl
          (fun l i => writeAt l (((List.range e.surface_size).map
            (fun idx : Nat => (idx : Int))).getD i 0) (i : Int))
          (List.replicate e.surface_size 0) := by
    show (spfhPass e (spfhIndices e)).spfh_hist_lookup = _
    rw [spfhPass_lookup, spfhIndices_fast e h1 h2]
  have hlt : n.toNat < e.surface_size := by omega
  have hget : ((List.range e.surface_size).map (fun idx : Nat => (idx : Int))).getD n.toNat 0
      = n := by
    rw [List.getD_eq_getElem _ _ (by simpa using hlt)]
    simp only [List.getElem_map, List.getElem_range]
    omega
  obtain ⟨hnd, hr⟩ := fast_candidates e.surface_size
  refine ⟨?_, ?_, ?_⟩
  · rw [hvec]
    exact List.mem_map.mpr ⟨n.toNat, List.mem_range.mpr hlt, by omega⟩
  · rw [hlook]
    have := readAt_lookupFold ((List.range e.surface_size).map (fun idx : Nat => (idx : Int)))
      (List.replicate e.surface_size 0) hnd (by simp) _ (le_refl _) n.toNat
      (by simpa using hlt)
    rw [hget] at this
    rw [this]
    omega
  · rw [hvec, hget]

end FPFHLemmas3

section FPFHClaims2

variable {K : Type} [Zero K]

/-- C12: in the general path the candidate list should hold every neighbor of every point of
interest once; on `twoPointFPFH false` the set of neighbors is `0, 1` and the candidate list
`computeFeature` works with has no element. -/
theorem computeFeature_general_path_candidates :
    (twoPointFPFH false).surface_is_input = false ∧
    spfhIndicesSet (twoPointFPFH false) = {0, 1} ∧
    (computeFeature (twoPointFPFH false) outputOfNines).spfh_indices_vec = [] ∧
    (computeFeature (twoPointFPFH false) outputOfNines).spfh_indices_vec.length
      ≠ (spfhIndicesSet (twoPointFPFH false)).card := by
  have hset : spfhIndicesSet (twoPointFPFH false) = {0, 1} := by decide
  have hvec : (computeFeature (twoPointFPFH false) outputOfNines).spfh_indices_vec = [] :=
    spfhIndices_general (twoPointFPFH false) (Or.inl rfl)
  refine ⟨rfl, hset, hvec, ?_⟩
  rw [hvec, hset]
  decide

/-- C13, as the code has it: in the fast path the candidate list is `0, 1, ..., n - 1` for the
`n` points of the surface; it holds every entry of an index list whose entries are points of the
surface, and its entries are those of the index list when this list has no duplicates. -/
theorem computeFeature_fast_path_candidates (e : FPFHEstimationOMP K)
    (output : PointCloudOut K)
    (h1 : e.surface_is_input = true) (h2 : e.indices_.length = e.surface_size) :
    (computeFeature e output).spfh_indices_vec
      = (List.range e.surface_size).map (fun idx : Nat => (idx : Int)) ∧
    ((∀ p ∈ e.indices_, 0 ≤ p ∧ p < e.surface_size) →
      ∀ p ∈ e.indices_, p ∈ (computeFeature e output).spfh_indices_vec) ∧
    ((∀ p ∈ e.indices_, 0 ≤ p ∧ p < e.surface_size) → e.indices_.Nodup →
      ∀ p, p ∈ (computeFeature e output).spfh_indices_vec ↔ p ∈ e.indices_) := by
  have hvec : (computeFeature e output).spfh_indices_vec
      = (List.range e.surface_size).map (fun idx : Nat => (idx : Int)) :=
    spfhIndices_fast e h1 h2
  have hsub : (∀ p ∈ e.indices_, 0 ≤ p ∧ p < e.surface_size) →
      ∀ p ∈ e.indices_, p ∈ (computeFeature e output).spfh_indices_vec := by
    intro hr p hp
    rw [hvec]
    have := hr p hp
    exact List.mem_map.mpr ⟨p.toNat, List.mem_range.mpr (by omega), by omega⟩
  refine ⟨hvec, hsub, ?_⟩
  intro hr hnd p
  constructor
  · intro hp
    rw [hvec] at hp
    obtain ⟨j, hj, rfl⟩ := List.mem_map.mp hp
    exact mem_of_nodup_of_range e.indices_ e.surface_size h2 hnd hr j (List.mem_range.mp hj)
  · exact hsub hr p

/-- C13 at a concrete input: the index list `0, 1` on a surface of two points. -/
theorem computeFeature_fast_path_candidates_witness :
    (computeFeature (twoPointFPFH true) outputOfNines).spfh_indices_vec = [0, 1] :=
  (computeFeature_fast_path_candidates (twoPointFPFH true) outputOfNines rfl rfl).1

/-- C13 as stated fails: the index list `0, 0` has the length of the surface of two points,
the fast path is taken, and the candidate list `0, 1` holds the point 1, which is no entry of the
index list. -/
theorem computeFeature_fast_path_candidates_differ :
    repeatedIndexFPFH.surface_is_input = true ∧
    repeatedIndexFPFH.indices_.length = repeatedIndexFPFH.surface_size ∧
    (computeFeature repeatedIndexFPFH outputOfNines).spfh_indices_vec = [0, 1] ∧
    (1 : Int) ∈ (computeFeature repeatedIndexFPFH outputOfNines).spfh_indices_vec ∧
    (1 : Int) ∉ repeatedIndexFPFH.indices_ := by
  have hvec : (computeFeature repeatedIndexFPFH outputOfNines).spfh_indices_vec = [0, 1] :=
    spfhIndices_fast repeatedIndexFPFH rfl rfl
  refine ⟨rfl, rfl, hvec, ?_, ?_⟩
  · rw [hvec]; decide
  · decide

/-- C15: for a candidate list whose entries are points of the surface, the lookup table after
the SPFH loop sends the candidate of every row `i` back to `i` exactly when the list has no
duplicates (two rows with the same candidate write the same slot); the list `computeFeature`
builds always has this property. -/
theorem spfhPass_lookup_inverts (e : FPFHEstimationOMP K) (output : PointCloudOut K)
    (vec : List Int) (hr : ∀ p ∈ vec, 0 ≤ p ∧ p < e.surface_size) :
    ((∀ i, i < vec.length →
        readAt (spfhPass e vec).spfh_hist_lookup (vec.getD i 0) = (i : Int)) ↔ vec.Nodup) ∧
    (vec.Nodup → ∀ i j, i < vec.length → j < vec.length → i ≠ j →
      vec.getD i 0 ≠ vec.getD j 0) ∧
    (∀ i, i < (computeFeature e output).spfh_indices_vec.length →
      readAt (computeFeature e output).spfh.spfh_hist_lookup
        ((computeFeature e output).spfh_indices_vec.getD i 0) = (i : Int)) := by
  have hinj : vec.Nodup → ∀ i j, i < vec.length → j < vec.length → i ≠ j →
      vec.getD i 0 ≠ vec.getD j 0 := by
    intro hnd i j hi hj hij heq
    rw [List.getD_eq_getElem _ _ hi, List.getD_eq_getElem _ _ hj] at heq
    exact hij ((hnd.getElem_inj_iff).mp heq)
  refine ⟨⟨?_, ?_⟩, hinj, ?_⟩
  · intro hinv
    rw [List.nodup_iff_injective_getElem]
    intro i j hij
    have hi := hinv i.1 i.2
    have hj := hinv j.1 j.2
    rw [List.getD_eq_getElem _ _ i.2] at hi
    rw [List.getD_eq_getElem _ _ j.2] at hj
    have hij2 : vec[i.1] = vec[j.1] := hij
    rw [hij2, hj] at hi
    exact Fin.ext (by exact_mod_cast hi.symm)
  · intro hnd i hi
    rw [spfhPass_lookup]
    exact readAt_lookupFold vec _ hnd
      (fun p hp => ⟨(hr p hp).1, by have := hr p hp; simp only [List.length_replicate]; omega⟩)
      _ (le_refl _) i hi
  · intro i hi
    by_cases hfast : e.surface_is_input = true ∧ e.indices_.length = e.surface_size
    · have hvec : (computeFeature e output).spfh_indices_vec
          = (List.range e.surface_size).map (fun idx : Nat => (idx : Int)) :=
        spfhIndices_fast e hfast.1 hfast.2
      rw [hvec] at hi
      have hi2 : i < e.surface_size := by simpa using hi
      have h := fast_path_lookup e output hfast.1 hfast.2 (i : Int) ⟨by omega, by omega⟩
      have hget := h.2.2
      simp only [Int.toNat_ofNat] at hget
      rw [hget]
      exact h.2.1
    · have hgen : e.surface_is_input = false ∨ e.indices_.length ≠ e.surface_size := by
        by_cases hs : e.surface_is_input = true
        · exact Or.inr (fun h => hfast ⟨hs, h⟩)
        · exact Or.inl (by simpa using hs)
      have hvec : (computeFeature e output).spfh_indices_vec = [] := spfhIndices_general e hgen
      rw [hvec] at hi
      exact absurd hi (Nat.not_lt_zero i)

end FPFHClaims2

section FPFHConcrete

theorem twoPointFPFH_fast_state :
    (computeFeature (twoPointFPFH true) outputOfNines).spfh
      = ⟨[[1], [2]], [[1], [1]], [[1], [1]], [0, 1]⟩ := by
  simp [computeFeature, spfhIndices, spfhPass, spfhIteration, twoPointFPFH, writeAt,
    List.range_succ]
  norm_num

theorem twoPointFPFH_general_state :
    (computeFeature (twoPointFPFH false) outputOfNines).spfh = ⟨[], [], [], [0, 0]⟩ := by
  have hvec : spfhIndices (twoPointFPFH false) = [] :=
    spfhIndices_general (twoPointFPFH false) (Or.inl rfl)
  show spfhPass (twoPointFPFH false) (spfhIndices (twoPointFPFH false)) = _
  rw [hvec]
  simp [spfhPass, twoPointFPFH]

theorem twoPointFPFH_fast_output :
    (computeFeature (twoPointFPFH true) outputOfNines).output
      = ⟨[⟨[2, 1, 1]⟩, ⟨[1, 1, 1]⟩]⟩ := by
  have hs := twoPointFPFH_fast_state
  simp only [computeFeature] at hs ⊢
  rw [hs]
  simp [fpfhIteration, fpfhHistogram, twoPointFPFH, outputOfNines, weightedRows, readAt,
    copyOnto, List.range_succ]

theorem twoPointFPFH_general_output :
    (computeFeature (twoPointFPFH false) outputOfNines).output = outputOfNines := by
  have hs := twoPointFPFH_general_state
  simp only [computeFeature] at hs ⊢
  rw [hs]
  simp [fpfhIteration, fpfhHistogram, twoPointFPFH, outputOfNines, weightedRows, readAt,
    copyOnto, List.range_succ]

end FPFHConcrete

section FPFHClaims3

/-- C14: with the surface equal to the input cloud and every point of interest, the fast path
and the general path should give the same histograms; on the estimator `twoPointFPFH` the fast
path writes the histograms `(2, 1, 1)` and `(1, 1, 1)`, and the general path, which works with
no candidate, no SPFH row and a lookup table of zeros, leaves the histograms as they were. -/
theorem computeFeature_paths_differ :
    (computeFeature (twoPointFPFH true) outputOfNines).output
      = ⟨[⟨[2, 1, 1]⟩, ⟨[1, 1, 1]⟩]⟩ ∧
    (computeFeature (twoPointFPFH false) outputOfNines).output = outputOfNines ∧
    (computeFeature (twoPointFPFH false) outputOfNines).spfh = ⟨[], [], [], [0, 0]⟩ ∧
    (computeFeature (twoPointFPFH true) outputOfNines).output.points.map (fun p => p.histogram)
      ≠ (computeFeature (twoPointFPFH false) outputOfNines).output.points.map
          (fun p => p.histogram) := by
  refine ⟨twoPointFPFH_fast_output, twoPointFPFH_general_output, twoPointFPFH_general_state, ?_⟩
  rw [twoPointFPFH_fast_output, twoPointFPFH_general_output]
  simp [outputOfNines]

/-- C15 at a concrete input: for the candidate list `1, 0` on a surface of two points the
lookup table sends the point 1 to the row 0 and the point 0 to the row 1. -/
theorem spfhPass_lookup_inverts_witness :
    readAt (spfhPass (twoPointFPFH true) [1, 0]).spfh_hist_lookup 1 = 0 ∧
    readAt (spfhPass (twoPointFPFH true) [1, 0]).spfh_hist_lookup 0 = 1 := by
  have h := (spfhPass_lookup_inverts (twoPointFPFH true) outputOfNines [1, 0]
    (by decide)).1.mpr (by decide)
  exact ⟨h 0 (by decide), h 1 (by decide)⟩

/-- C16: every neighbor of a point of interest should be a candidate whose lookup entry is the
row of its own SPFH signature; in the general path, on `twoPointFPFH false`, the point 1 is a
neighbor of the point 0, it is not in the candidate list, its lookup entry is the 0 the table
was filled with, and the SPFH matrices have no row. -/
theorem computeFeature_general_path_lookup :
    (1 : Int) ∈ ((twoPointFPFH false).searchForNeighbors 0
      (twoPointFPFH false).search_parameter_).1 ∧
    (1 : Int) ∉ (computeFeature (twoPointFPFH false) outputOfNines).spfh_indices_vec ∧
    (computeFeature (twoPointFPFH false) outputOfNines).spfh.spfh_hist_lookup = [0, 0] ∧
    readAt (computeFeature (twoPointFPFH false) outputOfNines).spfh.spfh_hist_lookup 1 = 0 ∧
    (computeFeature (twoPointFPFH false) outputOfNines).spfh.hist_f1_ = [] := by
  have hvec : (computeFeature (twoPointFPFH false) outputOfNines).spfh_indices_vec = [] :=
    spfhIndices_general (twoPointFPFH false) (Or.inl rfl)
  rw [twoPointFPFH_general_state, hvec]
  refine ⟨by decide, by simp, rfl, rfl, rfl⟩

end FPFHClaims3

end pcl

/-! ## Theorems: what the calls leave untouched, and repeated query indices -/

namespace pcl

section RigidTransformsFrame

variable {K : Type} [LinearOrderedField K]

/-- C17: in each of the three overloads, when the effective lengths differ the function returns
before it touches the output: every entry of the caller's matrix after the call is the entry it
held before the call. -/
theorem estimate_mismatch_frame (jacobiSVD : Matrix3 K → JacobiSVD K)
    (cloud_src cloud_tgt : PointCloud K) (indices_src indices_tgt : List Int)
    (M : Matrix4 K) :
    (cloud_src.points.length ≠ cloud_tgt.points.length →
      ∀ i j, (estimateRigidTransformationSVD jacobiSVD cloud_src cloud_tgt
        M).transformation_matrix i j = M i j) ∧
    (indices_src.length ≠ indices_tgt.length →
      ∀ i j, (estimateRigidTransformationSVDIndices jacobiSVD cloud_src indices_src cloud_tgt
        indices_tgt M).transformation_matrix i j = M i j) ∧
    (indices_src.length ≠ cloud_tgt.points.length →
      ∀ i j, (estimateRigidTransformationSVDIndicesSrc jacobiSVD cloud_src indices_src cloud_tgt
        M).transformation_matrix i j = M i j) := by
  refine ⟨fun h i j => ?_, fun h i j => ?_, fun h i j => ?_⟩
  · simp [estimateRigidTransformationSVD, h]
  · simp [estimateRigidTransformationSVDIndices, h]
  · simp [estimateRigidTransformationSVDIndicesSrc, h]

/-- C17 at a concrete input: a matrix whose entries are all 2, kept by the three overloads on
inputs of different lengths. -/
theorem estimate_mismatch_frame_witness :
    (∀ i j, (estimateRigidTransformationSVD reflectingSVD cloudA cloudB
      (fun _ _ => 2)).transformation_matrix i j = 2) ∧
    (∀ i j, (estimateRigidTransformationSVDIndices reflectingSVD cloudA [0, 1] cloudB [0]
      (fun _ _ => 2)).transformation_matrix i j = 2) ∧
    (∀ i j, (estimateRigidTransformationSVDIndicesSrc reflectingSVD cloudA [0, 1] cloudB
      (fun _ _ => 2)).transformation_matrix i j = 2) :=
  ⟨(estimate_mismatch_frame reflectingSVD cloudA cloudB [0, 1] [0] (fun _ _ => 2)).1
      (by decide),
    (estimate_mismatch_frame reflectingSVD cloudA cloudB [0, 1] [0] (fun _ _ => 2)).2.1
      (by decide),
    (estimate_mismatch_frame reflectingSVD cloudA cloudB [0, 1] [0] (fun _ _ => 2)).2.2
      (by decide)⟩

end RigidTransformsFrame

namespace registration

theorem set_difference_sublist : ∀ (l1 l2 : List Int), (set_difference l1 l2).Sublist l1
  | [], l2 => by simp [set_difference]
  | a :: as, [] => by simp [set_difference]
  | a :: as, b :: bs => by
    rw [set_difference]
    split_ifs with hab hba
    · exact (set_difference_sublist as (b :: bs)).cons₂ a
    · exact set_difference_sublist (a :: as) bs
    · exact (set_difference_sublist as bs).cons a
termination_by l1 l2 => l1.length + l2.length

theorem count_eq_zero_of_lt {l : List Int} {a v : Int} (h : ∀ x ∈ l, a ≤ x) (hv : v < a) :
    l.count v = 0 := by
  apply List.count_eq_zero_of_not_mem
  intro hm
  have := h v hm
  omega

theorem count_set_difference : ∀ (l1 l2 : List Int),
    l1.Sorted (· ≤ ·) → l2.Sorted (· ≤ ·) → ∀ v : Int,
    (set_difference l1 l2).count v = l1.count v - l2.count v
  | [], l2, _, _, v => by simp [set_difference]
  | a :: as, [], _, _, v => by simp [set_difference]
  | a :: as, b :: bs, h1, h2, v => by
    have h1t := List.Sorted.of_cons h1
    have h2t := List.Sorted.of_cons h2
    have ha := List.rel_of_sorted_cons h1
    have hb := List.rel_of_sorted_cons h2
    rw [set_difference]
    split_ifs with hab hba
    · have ih := count_set_difference as (b :: bs) h1t h2 v
      by_cases hva : v = a
      · subst hva
        have hz : (b :: bs).count v = 0 :=
          count_eq_zero_of_lt (a := b) (by
            intro x hx
            rcases List.mem_cons.mp hx with h | h
            · omega
            · exact hb x h) hab
        rw [hz] at ih ⊢
        simp only [List.count_cons_self, ih]
        omega
      · rw [List.count_cons_of_ne hva, List.count_cons_of_ne hva, ih]
    · have ih := count_set_difference (a :: as) bs h1 h2t v
      by_cases hvb : v = b
      · subst hvb
        have hz : (a :: as).count v = 0 :=
          count_eq_zero_of_lt (a := a) (by
            intro x hx
            rcases List.mem_cons.mp hx with h | h
            · omega
            · exact ha x h) hba
        rw [ih, hz]
        simp
      · rw [List.count_cons_of_ne hvb, ih]
    · have hEq : a = b := by omega
      subst hEq
      have ih := count_set_difference as bs h1t h2t v
      by_cases hva : v = a
      · subst hva
        simp only [List.count_cons_self, ih]
        omega
      · rw [List.count_cons_of_ne hva, List.count_cons_of_ne hva, ih]
termination_by l1 l2 => l1.length + l2.length

variable {K : Type}

/-- C18: with a stored input set that is not empty and query indices ascending (duplicates
allowed) in both the input set and the filtered set, the list `getRejectedQueryIndices` leaves in
`indices` does not depend on their previous content, is a subsequence of the query indices of the
input set (so ascending and no longer than the input set), and holds a value `v` as many times as
it occurs more often in the input set than in the filtered set. -/
theorem getRejectedQueryIndices_multiset (r : CorrespondenceRejector K)
    (input correspondences : Correspondences K) (indices : List Int)
    (hinput : r.input_correspondences_ = some input) (hne : input ≠ [])
    (hbefore : (input.map (fun c => c.index_query)).Sorted (· ≤ ·))
    (hafter : (correspondences.map (fun c => c.index_query)).Sorted (· ≤ ·)) :
    (r.getRejectedQueryIndices correspondences indices).indices
      = (r.getRejectedQueryIndices correspondences []).indices ∧
    (r.getRejectedQueryIndices correspondences indices).indices.Sublist
      (input.map (fun c => c.index_query)) ∧
    (r.getRejectedQueryIndices correspondences indices).indices.Sorted (· ≤ ·) ∧
    (r.getRejectedQueryIndices correspondences indices).indices.length ≤ input.length ∧
    (∀ v : Int, (r.getRejectedQueryIndices correspondences indices).indices.count v
      = (input.map (fun c => c.index_query)).count v
        - (correspondences.map (fun c => c.index_query)).count v) := by
  have hemp : input.isEmpty = false := by
    cases input with
    | nil => exact absurd rfl hne
    | cons c cs => rfl
  have hres : ∀ ind : List Int, (r.getRejectedQueryIndices correspondences ind).indices
      = set_difference (input.map (fun c => c.index_query))
          (correspondences.map (fun c => c.index_query)) := by
    intro ind
    simp only [CorrespondenceRejector.getRejectedQueryIndices, hinput, hemp, Bool.false_eq_true,
      if_false]
  have hsub := set_difference_sublist (input.map (fun c => c.index_query))
    (correspondences.map (fun c => c.index_query))
  rw [hres indices, hres []]
  refine ⟨rfl, hsub, hbefore.sublist hsub, ?_, ?_⟩
  · have := hsub.length_le
    simpa using this
  · exact count_set_difference _ _ hbefore hafter

/-- C18 at a concrete input: the query indices 1, 1, 1, 2, 4, 4 before and 1, 4, 4, 5 after
filtering leave 1, 1, 2. -/
theorem getRejectedQueryIndices_multiset_witness :
    ((thresholdRejector.setInputCorrespondences
      (some [corr 1, corr 1, corr 1, corr 2, corr 4, corr 4])).getRejectedQueryIndices
        [corr 1, corr 4, corr 4, corr 5] [9, 9]).indices.count 1 = 3 - 1 := by
  have h := (getRejectedQueryIndices_multiset
    (thresholdRejector.setInputCorrespondences
      (some [corr 1, corr 1, corr 1, corr 2, corr 4, corr 4]))
    [corr 1, corr 1, corr 1, corr 2, corr 4, corr 4] [corr 1, corr 4, corr 4, corr 5] [9, 9] rfl
    (by simp) (by simp [corr]) (by simp [corr])).2.2.2.2 1
  rw [h]
  simp [corr]

end registration

end pcl
